import Mathlib

/-!
# discord-stock-ticker: the watcher loops of `stock.go` and `token.go`

A shallow embedding of the three polling loops (`watchStockPrice`,
`watchCryptoPrice`, `watchTokenPrice`) together with the constructor `NewToken` and
the method `Shutdown`.

Conventions of the embedding.

* A Go `float64` price is an exact rational number (`ℚ`): binary rounding, `NaN` and
  the infinities are outside the model.  `fmt.Sprintf("%.Nf", x)` and
  `strconv.FormatFloat(x, 'f', N, 64)` are `fmtFixed N x`.
* The counter `itrSeed` is a `float64` in the source that only ever holds small
  non-negative whole numbers, so it is a `Nat` and `math.Mod(itrSeed, 2.0) == 1.0`
  is `itrSeed % 2 = 1`.
* A call that returns `(value, err)` is a pair whose second component says whether
  `err != nil`.
* One iteration of a `for { select { ... case <-ticker.C: ... } }` body is a function
  from the loop state and the answers of the outside world on that tick to the list
  of chat-platform calls it makes and the next loop state.  `none` is a run-time
  panic (index out of range).  A `continue` returns no calls and the state unchanged.
* The channel `close` is the number of values in its buffer of capacity one; a send
  that finds the buffer full does not return (`none`), and the only receive is the
  `case <-close` of the loop, after which the goroutine has returned.
-/

namespace StockTicker

/-! ## Text and numbers -/

/-- Decimal digit character of `n % 10`. -/
def digitChar (n : Nat) : Char :=
  match n % 10 with
  | 0 => '0' | 1 => '1' | 2 => '2' | 3 => '3' | 4 => '4'
  | 5 => '5' | 6 => '6' | 7 => '7' | 8 => '8' | _ => '9'

/-- The last `d` decimal digits of `n`, most significant first, zero padded. -/
def padDigits : Nat → Nat → List Char
  | 0, _ => []
  | d + 1, n => padDigits d (n / 10) ++ [digitChar n]

/-- The fraction `a / den` rounded to the nearest whole number, ties to even. -/
def roundHalfEven (a den : Nat) : Nat :=
  if 2 * (a % den) < den then a / den
  else if den < 2 * (a % den) then a / den + 1
  else if (a / den) % 2 = 0 then a / den else a / den + 1

/-- The magnitude of `q` in units of `10 ^ (-d)`, rounded to nearest (ties to even). -/
def scaled (d : Nat) (q : ℚ) : Nat :=
  roundHalfEven (q.num.natAbs * 10 ^ d) q.den

/-- Decimal digits of `n` without padding, computed in at most `fuel + 1` rounds. -/
def natCharsAux : Nat → Nat → List Char
  | 0, n => [digitChar n]
  | fuel + 1, n => if n < 10 then [digitChar n] else natCharsAux fuel (n / 10) ++ [digitChar n]

/-- Decimal digits of `n`, most significant first (`0` is one digit). -/
def natChars (n : Nat) : List Char :=
  natCharsAux n n

/-- Characters of a fixed-point rendering: sign, whole part, and `d` fractional
digits of the scaled magnitude `n`. -/
def fixedChars (d : Nat) (neg : Bool) (n : Nat) : List Char :=
  (if neg then ['-'] else []) ++ natChars (n / 10 ^ d)
    ++ (if d = 0 then [] else '.' :: padDigits d (n % 10 ^ d))

/-- The verb `%.<d>f` of `fmt.Sprintf` (and `strconv.FormatFloat(q, 'f', d, 64)`):
a minus sign when `q` is negative, the whole part, a point and exactly `d` fractional
digits, rounded to nearest. -/
def fmtFixed (d : Nat) (q : ℚ) : String :=
  String.mk (fixedChars d (decide (q < 0)) (scaled d q))

/-- Value of a run of decimal digits, most significant first, on top of `acc`. -/
def digitsValue (acc : Nat) : List Char → Nat
  | [] => acc
  | c :: cs => digitsValue (acc * 10 + (c.toNat - 48)) cs

/-- A parsed decimal literal: `(-1)^neg * mantissa * 10 ^ exp10`. -/
structure Decimal where
  neg : Bool
  mantissa : Nat
  exp10 : Int
  deriving DecidableEq, Repr

/-- The optional exponent part `e[+-]digits` of a decimal literal. -/
def parseExponent : List Char → Option Int
  | [] => some 0
  | c :: rest =>
    if c = 'e' ∨ c = 'E' then
      match rest with
      | '-' :: ds =>
        if ds ≠ [] ∧ ds.all Char.isDigit = true then some (-(digitsValue 0 ds : Int)) else none
      | '+' :: ds =>
        if ds ≠ [] ∧ ds.all Char.isDigit = true then some (digitsValue 0 ds : Int) else none
      | ds =>
        if ds ≠ [] ∧ ds.all Char.isDigit = true then some (digitsValue 0 ds : Int) else none
    else none

/-- The decimal grammar of `strconv.ParseFloat`: an optional sign, digits with an
optional point (at least one digit in all), an optional decimal exponent.  The
hexadecimal, `inf` and `nan` spellings are not in the model. -/
def parseDecimal (s : String) : Option Decimal :=
  let signed : Bool × List Char :=
    match s.data with
    | '-' :: r => (true, r)
    | '+' :: r => (false, r)
    | r => (false, r)
  let ip := signed.2.takeWhile Char.isDigit
  let fr : List Char × List Char :=
    match signed.2.dropWhile Char.isDigit with
    | '.' :: r => (r.takeWhile Char.isDigit, r.dropWhile Char.isDigit)
    | r => ([], r)
  if ip = [] ∧ fr.1 = [] then none
  else
    match parseExponent fr.2 with
    | none => none
    | some e => some ⟨signed.1, digitsValue 0 (ip ++ fr.1), e - (fr.1.length : Int)⟩

/-- The call `strconv.ParseFloat(s, 64)`: the value and whether an error is returned;
a text that is not a number gives `0` and an error. -/
def parseFloat (s : String) : ℚ × Bool :=
  match parseDecimal s with
  | some d => ((if d.neg then -1 else 1) * (d.mantissa : ℚ) * (10 : ℚ) ^ d.exp10, false)
  | none => (0, true)

/-- The test `string(s[0]) == "-"` guarded by `len(s) == 0`, as both price loops
write it: `true` (an increase) unless the text starts with a minus sign. -/
def increaseOf (fmtChange : String) : Bool :=
  if fmtChange.length = 0 then true
  else if fmtChange.data.head? = some '-' then false
  else true

/-- The arrow selection `if arrows { Decorator = "⬊"; if increase { Decorator = "⬈" } }`:
the value of the `Decorator` field after it. -/
def decorate (arrows increase : Bool) (Decorator : String) : String :=
  if arrows then (if increase then "⬈" else "⬊") else Decorator

/-- Conversion of `time.Duration(frequency) * time.Second` in 64-bit two's complement. -/
def seconds (frequency : Int) : Int :=
  (frequency * 1000000000 + 2 ^ 63) % 2 ^ 64 - 2 ^ 63

/-! ## The chat platform -/

/-- A guild the bot is a member of, as returned by `dg.UserGuilds`. -/
structure Guild where
  ID : String
  Name : String
  deriving DecidableEq, Repr

/-- A role of a guild, as returned by `dg.GuildRoles`. -/
structure Role where
  ID : String
  Name : String
  deriving DecidableEq, Repr

/-- Answers of the chat platform during one tick: whether `GuildMemberNickname`
fails for a guild, and the result of `GuildRoles` (`none` is an error).  Failures of
the role and activity calls are only logged by the loops and are not recorded. -/
structure Discord where
  nicknameErr : String → Bool
  guildRoles : String → Option (List Role)

/-- A call that changes what the chat platform displays. -/
inductive Call where
  | GuildMemberNickname (guildID userID nickname : String)
  | GuildMemberRoleRemove (guildID userID roleID : String)
  | GuildMemberRoleAdd (guildID userID roleID : String)
  | UpdateGameStatus (idle : Nat) (name : String)
  deriving DecidableEq, Repr

/-- The loop `for _, r := range roles` that looks up the two colour roles:
`(redRole, greeenRole)`, the last match winning. -/
def findRoles (roles : List Role) : String × String :=
  roles.foldl
    (fun acc r =>
      if r.Name = "tickers-red" then (r.ID, acc.2)
      else if r.Name = "tickers-green" then (acc.1, r.ID)
      else acc)
    ("", "")

/-- Body of `for _, g := range guilds`: the nickname update and, when colour is on,
the role swap, for one guild. -/
def guildCalls (dg : Discord) (Color increase : Bool) (botUserID nickname : String)
    (g : Guild) : List Call :=
  Call.GuildMemberNickname g.ID "@me" nickname ::
    (if dg.nicknameErr g.ID then []
     else if Color then
       match dg.guildRoles g.ID with
       | none => []
       | some roles =>
         if (findRoles roles).1.length = 0 ∨ (findRoles roles).2.length = 0 then []
         else if increase then
           [Call.GuildMemberRoleRemove g.ID botUserID (findRoles roles).1,
            Call.GuildMemberRoleAdd g.ID botUserID (findRoles roles).2]
         else
           [Call.GuildMemberRoleRemove g.ID botUserID (findRoles roles).2,
            Call.GuildMemberRoleAdd g.ID botUserID (findRoles roles).1]
     else [])

/-- The whole loop `for _, g := range guilds`. -/
def guildUpdates (dg : Discord) (Color increase : Bool) (botUserID nickname : String) :
    List Guild → List Call
  | [] => []
  | g :: gs =>
    guildCalls dg Color increase botUserID nickname g
      ++ guildUpdates dg Color increase botUserID nickname gs

/-! ## Rotation of custom activity messages (crypto and token loops) -/

/-- The block under `// Custom activity messages` of `watchCryptoPrice` and
`watchTokenPrice` (the two copies are the same text): given the live `activity` and the
counters `itr`, `itrSeed`, the activity to publish and the new counters.  `none` is
the panic of an out-of-range `custom_activity[itr]`. -/
def rotate {α : Type} (custom_activity : List α) (activity : α) (itr itrSeed : Nat) :
    Option (α × Nat × Nat) :=
  if custom_activity.length > 0 then
    if itr = custom_activity.length then some (activity, 0, 0)
    else if itrSeed % 2 = 1 then
      match custom_activity[itr]? with
      | some c => some (c, itr + 1, itrSeed + 1)
      | none => none
    else
      match custom_activity[itr]? with
      | some c => some (c, itr, itrSeed + 1)
      | none => none
  else some (activity, itr, itrSeed)

/-- The activities published by `n` consecutive nickname-mode ticks whose live
statuses are `live 0`, `live 1`, ..., and the counters after them. -/
def rotateRun {α : Type} (custom_activity : List α) (live : Nat → α) :
    Nat → Nat × Nat → Option (List α × (Nat × Nat))
  | 0, c => some ([], c)
  | n + 1, c =>
    match rotate custom_activity (live 0) c.1 c.2 with
    | none => none
    | some (a, itr, itrSeed) =>
      match rotateRun custom_activity (fun k => live (k + 1)) n (itr, itrSeed) with
      | none => none
      | some (as, c2) => some (a :: as, c2)

/-! ## Quotes of the price providers -/

/-- Modelled from the spec: the declaration of a quote field in package `utils` is
not among the sources; a field carries the raw number and the text the provider
formatted it to, the two components the loops read (`.Raw`, `.Fmt`). -/
structure FmtValue where
  Raw : ℚ
  Fmt : String
  deriving DecidableEq

/-- Modelled from the spec: the `Price` record of `utils.PriceResults` is not among
the sources; these are the fields `watchStockPrice` reads. -/
structure StockPrice where
  RegularMarketPrice : FmtValue
  MarketState : String
  PostMarketChangePercent : FmtValue
  PostMarketChange : FmtValue
  PreMarketChangePercent : FmtValue
  PreMarketChange : FmtValue
  RegularMarketChangePercent : FmtValue
  RegularMarketChange : FmtValue
  MarketCap : FmtValue
  CirculatingSupply : FmtValue
  Volume24Hr : FmtValue
  RegularMarketOpen : FmtValue
  deriving DecidableEq

/-- Modelled from the spec: one element of `QuoteSummary.Results`. -/
structure StockResult where
  Price : StockPrice
  deriving DecidableEq

/-- Modelled from the spec: the `QuoteSummary` record of `utils.PriceResults`. -/
structure QuoteSummary where
  Results : List StockResult
  deriving DecidableEq

/-- Modelled from the spec: `utils.PriceResults`, the equity quote. -/
structure PriceResults where
  QuoteSummary : QuoteSummary
  deriving DecidableEq

/-- Modelled from the spec: a pair of amounts `USD`, `BTC` of `utils.GeckoPriceResults`. -/
structure CurrencyPair where
  USD : ℚ
  BTC : ℚ
  deriving DecidableEq

/-- Modelled from the spec: the `MarketData` record of `utils.GeckoPriceResults`;
these are the fields `watchCryptoPrice` and `watchTokenPrice` read. -/
structure MarketData where
  CurrentPrice : CurrencyPair
  PriceChangeCurrency : CurrencyPair
  PriceChangePercent : ℚ
  deriving DecidableEq

/-- Modelled from the spec: `utils.GeckoPriceResults`, the crypto quote. -/
structure GeckoPriceResults where
  Symbol : String
  MarketData : MarketData
  deriving DecidableEq

/-! ## `stock.go`: the equity loop -/

/-- The record `Stock`.  The fields `Cache`, `Context` (which only select and feed
the fetch call) and `close` (the shutdown channel) are not part of the record here. -/
structure Stock where
  Ticker : String
  Name : String
  Nickname : Bool
  Color : Bool
  Decorator : String
  Frequency : Int
  Currency : String
  Bitcoin : Bool
  Activity : String
  ExtendActivity : Bool
  token : String
  deriving DecidableEq

/-- Local variables of `watchStockPrice` that live across ticks, with the receiver. -/
structure StockLoop where
  s : Stock
  exRate : ℚ
  arrows : Bool
  guilds : List Guild
  botUserID : String
  activity_messages : List String
  itr : Nat

/-- Each custom message twice, in order: the loop
`for _, message := range ... { append(activity_messages, message, message) }`. -/
def doubled : List String → List String
  | [] => []
  | message :: rest => message :: message :: doubled rest

/-- The list `activity_messages` built before the equity loop starts. -/
def stockMessages (s : Stock) : List String :=
  ["<price-diff>", "<price-diff>"]
    ++ (if s.ExtendActivity then
          ["<market-cap>", "<market-cap>", "<circulating-supply>", "<circulating-supply>",
           "<volume>", "<volume>", "<open>", "<open>"]
        else [])
    ++ (if s.Activity ≠ "" then doubled (s.Activity.splitOn ";") else [])

/-- The exchange rate resolved before a loop starts: `0` when the currency is USD or
the lookup of `<Currency>=X` fails, else the raw regular-market price of its first
result.  `none` is the panic of `Results[0]` on an empty result list. -/
def resolveExRate (Currency : String) (lookup : PriceResults × Bool) : Option ℚ :=
  if Currency ≠ "USD" then
    if lookup.2 then some 0
    else
      match lookup.1.QuoteSummary.Results with
      | [] => none
      | r :: _ => some r.Price.RegularMarketPrice.Raw
  else some 0

/-- The loop state `watchStockPrice` enters its `for` with, once the session is up:
`guilds` is the result of `dg.UserGuilds` (`none` is an error, which switches the
nickname off) and `exRate` the resolved exchange rate. -/
def watchStockPriceInit (s : Stock) (botUserID : String) (guilds : Option (List Guild))
    (exRate : ℚ) : StockLoop :=
  { s := { s with Nickname := if guilds.isNone then false else s.Nickname }
    exRate := exRate
    arrows := decide (s.Decorator = "")
    guilds := guilds.getD []
    botUserID := botUserID
    activity_messages := stockMessages s
    itr := 0 }

/-- Assignment `xs[i] = v` to a slice element; `none` is the index-out-of-range panic. -/
def setAt (xs : List String) (i : Nat) (v : String) : Option (List String) :=
  if i < xs.length then some (xs.set i v) else none

/-- The price text of an equity tick: the provider's formatting, or the converted
raw price with two decimals when an exchange rate is set. -/
def stockFmtPrice (exRate : ℚ) (p : StockPrice) : String :=
  if exRate ≠ 0 then fmtFixed 2 (exRate * p.RegularMarketPrice.Raw)
  else p.RegularMarketPrice.Fmt

/-- The session-selected change texts of an equity tick: `(fmtDiffPercent, fmtDiffChange)`. -/
def stockDiff (p : StockPrice) : String × String :=
  if p.MarketState = "POST" then (p.PostMarketChangePercent.Fmt, p.PostMarketChange.Fmt)
  else if p.MarketState = "PRE" then (p.PreMarketChangePercent.Fmt, p.PreMarketChange.Fmt)
  else (p.RegularMarketChangePercent.Fmt, p.RegularMarketChange.Fmt)

/-- The assignments to `activity_messages[0..9]` of a nickname-mode equity tick, in
source order. -/
def fillMessages (ExtendActivity : Bool) (p : StockPrice) (fmtDiffChange fmtDiffPercent : String)
    (msgs : List String) : Option (List String) := do
  let m0 ← setAt msgs 0 ("$" ++ fmtDiffChange ++ " (" ++ fmtDiffPercent ++ ")")
  let a0 ← m0[0]?
  let m1 ← setAt m0 1 a0
  if ExtendActivity then
    let m2 ← setAt m1 2 ("Market Cap: " ++ p.MarketCap.Fmt)
    let b0 ← m2[0]?
    let m3 ← setAt m2 3 b0
    let m4 ← setAt m3 4 ("Circulating: " ++ p.CirculatingSupply.Fmt)
    let a4 ← m4[4]?
    let m5 ← setAt m4 5 a4
    let m6 ← setAt m5 6 ("Volume: " ++ p.Volume24Hr.Fmt)
    let a6 ← m6[6]?
    let m7 ← setAt m6 7 a6
    let m8 ← setAt m7 8 ("Open: " ++ p.RegularMarketOpen.Fmt)
    let a8 ← m8[8]?
    setAt m8 9 a8
  else
    pure m1

/-- One `case <-ticker.C:` of `watchStockPrice`.  `fetch` is what
`utils.GetStockPrice(s.Ticker)` returned on this tick. -/
def watchStockPriceTick (dg : Discord) (fetch : PriceResults × Bool) (st : StockLoop) :
    Option (List Call × StockLoop) :=
  match fetch.1.QuoteSummary.Results with
  | [] => some ([], st)
  | r :: _ =>
    let fmtPrice := stockFmtPrice st.exRate r.Price
    let fmtDiffPercent := (stockDiff r.Price).1
    let fmtDiffChange := (stockDiff r.Price).2
    let increase := increaseOf fmtDiffChange
    let Decorator := decorate st.arrows increase st.s.Decorator
    if st.s.Nickname then
      let nickname := st.s.Name.toUpper ++ " " ++ Decorator ++ " $" ++ fmtPrice
      match fillMessages st.s.ExtendActivity r.Price fmtDiffChange fmtDiffPercent
          st.activity_messages with
      | none => none
      | some msgs =>
        match msgs[st.itr]? with
        | none => none
        | some activity =>
          some (guildUpdates dg st.s.Color increase st.botUserID nickname st.guilds
                  ++ [Call.UpdateGameStatus 0 activity],
                { st with
                  s := { st.s with Decorator := Decorator }
                  activity_messages := msgs
                  itr := if st.itr + 1 = msgs.length then 0 else st.itr + 1 })
    else
      some ([Call.UpdateGameStatus 0 (fmtPrice ++ " " ++ Decorator ++ " " ++ fmtDiffPercent)],
            { st with s := { st.s with Decorator := Decorator } })

/-! ## `stock.go`: the crypto loop -/

/-- Local variables of `watchCryptoPrice` that live across ticks, with the receiver. -/
structure CryptoLoop where
  s : Stock
  exRate : ℚ
  arrows : Bool
  guilds : List Guild
  botUserID : String
  custom_activity : List String
  itr : Nat
  itrSeed : Nat

/-- The list `custom_activity` of the crypto and token loops. -/
def customActivity (Activity : String) : List String :=
  if Activity ≠ "" then Activity.splitOn ";" else []

/-- The loop state `watchCryptoPrice` enters its `for` with, once the session is up. -/
def watchCryptoPriceInit (s : Stock) (botUserID : String) (guilds : Option (List Guild))
    (exRate : ℚ) : CryptoLoop :=
  { s := { s with Nickname := if guilds.isNone then false else s.Nickname }
    exRate := exRate
    arrows := decide (s.Decorator = "")
    guilds := guilds.getD []
    botUserID := botUserID
    custom_activity := customActivity s.Activity
    itr := 0
    itrSeed := 0 }

/-- The block `if exRate != 0 { ... }` of the crypto tick: the USD price and the USD
change of the quote are overwritten by their products with the rate. -/
def convert (exRate : ℚ) (priceData : GeckoPriceResults) : GeckoPriceResults :=
  if exRate ≠ 0 then
    { priceData with
      MarketData :=
        { priceData.MarketData with
          CurrentPrice :=
            { priceData.MarketData.CurrentPrice with
              USD := exRate * priceData.MarketData.CurrentPrice.USD }
          PriceChangeCurrency :=
            { priceData.MarketData.PriceChangeCurrency with
              USD := exRate * priceData.MarketData.PriceChangeCurrency.USD } } }
  else priceData

/-- Texts computed by the block `if s.Bitcoin { ... } else { ... }` of the crypto tick. -/
structure CryptoText where
  changeHeader : String
  fmtPrice : String
  fmtChange : String
  deriving DecidableEq, Repr

/-- The block `// Check if a crypto pair is set` of the crypto tick, on the quote as
it stands after the conversion. -/
def cryptoText (Bitcoin : Bool) (priceData : GeckoPriceResults) : CryptoText :=
  if Bitcoin then
    { changeHeader := "₿"
      fmtPrice := "₿" ++ fmtFixed 6 priceData.MarketData.CurrentPrice.BTC
      fmtChange := fmtFixed 2 priceData.MarketData.PriceChangeCurrency.BTC }
  else if priceData.MarketData.CurrentPrice.USD < 1 / 100 then
    if priceData.MarketData.CurrentPrice.USD * 100 < 1 / 100000 then
      { changeHeader := "$"
        fmtPrice := fmtFixed 8 (priceData.MarketData.CurrentPrice.USD * 100) ++ "¢"
        fmtChange := fmtFixed 2 priceData.MarketData.PriceChangeCurrency.USD }
    else
      { changeHeader := "$"
        fmtPrice := fmtFixed 6 (priceData.MarketData.CurrentPrice.USD * 100) ++ "¢"
        fmtChange := fmtFixed 2 priceData.MarketData.PriceChangeCurrency.USD }
  else if priceData.MarketData.CurrentPrice.USD < 1 then
    { changeHeader := "$"
      fmtPrice := "$" ++ fmtFixed 3 priceData.MarketData.CurrentPrice.USD
      fmtChange := fmtFixed 2 priceData.MarketData.PriceChangeCurrency.USD }
  else
    { changeHeader := "$"
      fmtPrice := "$" ++ fmtFixed 2 priceData.MarketData.CurrentPrice.USD
      fmtChange := fmtFixed 2 priceData.MarketData.PriceChangeCurrency.USD }

/-- One `case <-ticker.C:` of `watchCryptoPrice`.  `fetch` is what
`utils.GetCryptoPrice` (or `utils.GetCryptoPriceCache`) returned on this tick. -/
def watchCryptoPriceTick (dg : Discord) (fetch : GeckoPriceResults × Bool) (st : CryptoLoop) :
    Option (List Call × CryptoLoop) :=
  let priceData := convert st.exRate fetch.1
  let fmtDiffPercent := fmtFixed 2 priceData.MarketData.PriceChangePercent
  let t := cryptoText st.s.Bitcoin priceData
  let increase := increaseOf t.fmtChange
  let Decorator := decorate st.arrows increase st.s.Decorator
  if st.s.Nickname then
    let displayName := if st.s.Ticker ≠ "" then st.s.Ticker else priceData.Symbol.toUpper
    let nickname := displayName ++ " " ++ Decorator ++ " " ++ t.fmtPrice
    let activity := t.changeHeader ++ t.fmtChange ++ " (" ++ fmtDiffPercent ++ "%)"
    match rotate st.custom_activity activity st.itr st.itrSeed with
    | none => none
    | some (shown, itr, itrSeed) =>
      some (guildUpdates dg st.s.Color increase st.botUserID nickname st.guilds
              ++ [Call.UpdateGameStatus 0 shown],
            { st with
              s := { st.s with Decorator := Decorator }
              itr := itr
              itrSeed := itrSeed })
  else
    some ([Call.UpdateGameStatus 0 (t.fmtPrice ++ " " ++ Decorator ++ " " ++ fmtDiffPercent ++ "%")],
          { st with s := { st.s with Decorator := Decorator } })

/-! ## `token.go` -/

/-- The record `Token`, without the channel `close`. -/
structure Token where
  Network : String
  Contract : String
  Name : String
  Nickname : Bool
  Frequency : Int
  Color : Bool
  Decorator : String
  Decimals : Int
  Activity : String
  Source : String
  token : String
  deriving DecidableEq

set_option linter.unusedVariables false in
/-- The record built by `NewToken`.  The composite literal of the source has no entry
for `Decimals`, so the field keeps the zero value of `int`. -/
def NewToken (network contract token name : String) (nickname : Bool) (frequency : Int)
    (decimals : Int) (activity : String) (color : Bool) (decorator source : String) : Token :=
  { Network := network
    Contract := contract
    Name := name
    Nickname := nickname
    Frequency := seconds frequency
    Color := color
    Decorator := decorator
    Decimals := 0
    Activity := activity
    Source := source
    token := token }

/-- Local variables of `watchTokenPrice` that live across ticks, with the receiver. -/
structure TokenLoop where
  m : Token
  arrows : Bool
  guilds : List Guild
  botUserID : String
  custom_activity : List String
  itr : Nat
  itrSeed : Nat
  oldPrice : ℚ

/-- The loop state `watchTokenPrice` enters its `for` with, once the session is up:
`guilds` is the result of `dg.UserGuilds` (`none` is an error, which switches the
nickname off). -/
def watchTokenPriceInit (m : Token) (botUserID : String) (guilds : Option (List Guild)) :
    TokenLoop :=
  { m := { m with Nickname := if guilds.isNone then false else m.Nickname }
    arrows := decide (m.Decorator = "")
    guilds := guilds.getD []
    botUserID := botUserID
    custom_activity := customActivity m.Activity
    itr := 0
    itrSeed := 0
    oldPrice := 0 }

/-- What the price providers answered on one token tick: `utils.GetPancakeTokenPrice`,
`utils.GetCryptoPrice("binancecoin")` and `utils.Get1inchTokenPrice`. -/
structure TokenFetch where
  pancake : String × Bool
  bnbRate : GeckoPriceResults × Bool
  oneInch : String × Bool

/-- The `switch m.Source` of the token tick: the computed `fmtPrice`, or `none` when a
branch leaves the tick with `continue`. -/
def tokenFmtPrice (m : Token) (fetch : TokenFetch) : Option ℚ :=
  if m.Source = "pancakeswap" then
    if fetch.pancake.2 then none
    else if fetch.bnbRate.2 then none
    else some (fetch.bnbRate.1.MarketData.CurrentPrice.USD * (parseFloat fetch.pancake.1).1)
  else some ((parseFloat fetch.oneInch.1).1 / 10000000)

/-- The `switch m.Decimals` of the token tick. -/
def tokenNickname (m : Token) (Decorator : String) (fmtPrice : ℚ) : String :=
  if m.Decimals = 1 then m.Name ++ " " ++ Decorator ++ " $" ++ fmtFixed 1 fmtPrice
  else if m.Decimals = 2 then m.Name ++ " " ++ Decorator ++ " $" ++ fmtFixed 2 fmtPrice
  else if m.Decimals = 3 then m.Name ++ " " ++ Decorator ++ " $" ++ fmtFixed 3 fmtPrice
  else if m.Decimals = 4 then m.Name ++ " " ++ Decorator ++ " $" ++ fmtFixed 4 fmtPrice
  else if m.Decimals = 5 then m.Name ++ " " ++ Decorator ++ " $" ++ fmtFixed 5 fmtPrice
  else if m.Decimals = 6 then m.Name ++ " " ++ Decorator ++ " $" ++ fmtFixed 6 fmtPrice
  else if m.Decimals = 7 then m.Name ++ " " ++ Decorator ++ " $" ++ fmtFixed 7 fmtPrice
  else if m.Decimals = 8 then m.Name ++ " " ++ Decorator ++ " $" ++ fmtFixed 8 fmtPrice
  else if m.Decimals = 9 then m.Name ++ " " ++ Decorator ++ " $" ++ fmtFixed 9 fmtPrice
  else if m.Decimals = 10 then m.Name ++ " " ++ Decorator ++ " $" ++ fmtFixed 10 fmtPrice
  else if m.Decimals = 11 then m.Name ++ " " ++ Decorator ++ " $" ++ fmtFixed 11 fmtPrice
  else m.Name ++ " " ++ Decorator ++ " $" ++ fmtFixed 4 fmtPrice

/-- What one token tick did: the calls it made, the value of its local `increase`
(`none` when the tick was left by `continue` before computing it) and the next state. -/
structure TokenStep where
  calls : List Call
  increase : Option Bool
  next : TokenLoop

/-- One `case <-ticker.C:` of `watchTokenPrice`. -/
def watchTokenPriceTick (dg : Discord) (fetch : TokenFetch) (st : TokenLoop) :
    Option TokenStep :=
  match tokenFmtPrice st.m fetch with
  | none => some { calls := [], increase := none, next := st }
  | some fmtPrice =>
    let increase := decide (fmtPrice ≥ st.oldPrice)
    let Decorator := decorate st.arrows increase st.m.Decorator
    if st.m.Nickname then
      let nickname := tokenNickname st.m Decorator fmtPrice
      match rotate st.custom_activity "Using USDC on 1inch" st.itr st.itrSeed with
      | none => none
      | some (shown, itr, itrSeed) =>
        some
          { calls :=
              guildUpdates dg st.m.Color increase st.botUserID nickname st.guilds
                ++ [Call.UpdateGameStatus 0 shown]
            increase := some increase
            next :=
              { st with
                m := { st.m with Decorator := Decorator }
                itr := itr
                itrSeed := itrSeed
                oldPrice := fmtPrice } }
    else
      some
        { calls :=
            [Call.UpdateGameStatus 0 (st.m.Name ++ " " ++ Decorator ++ " $" ++ fmtFixed 2 fmtPrice)]
          increase := some increase
          next := { st with m := { st.m with Decorator := Decorator }, oldPrice := fmtPrice } }

/-- Consecutive ticks of `watchTokenPrice`: what each of them did, and the final state. -/
def watchTokenPriceTicks : List (Discord × TokenFetch) → TokenLoop →
    Option (List TokenStep × TokenLoop)
  | [], st => some ([], st)
  | (dg, fetch) :: rest, st =>
    match watchTokenPriceTick dg fetch st with
    | none => none
    | some step =>
      match watchTokenPriceTicks rest step.next with
      | none => none
      | some (steps, final) => some (step :: steps, final)

/-- The price the next token tick compares with, after the given ticks have run from
a remembered price `start`: the price of the last tick that computed one. -/
def previousPrice (m : Token) (start : ℚ) : List (Discord × TokenFetch) → ℚ
  | [] => start
  | (_, fetch) :: rest =>
    match tokenFmtPrice m fetch with
    | none => previousPrice m start rest
    | some p => previousPrice m p rest

/-- Consecutive ticks of `watchStockPrice`: the calls and the state after each of
them, and the final state. -/
def watchStockPriceTicks : List (Discord × (PriceResults × Bool)) → StockLoop →
    Option (List (List Call × StockLoop) × StockLoop)
  | [], st => some ([], st)
  | (dg, fetch) :: rest, st =>
    match watchStockPriceTick dg fetch st with
    | none => none
    | some step =>
      match watchStockPriceTicks rest step.2 with
      | none => none
      | some (steps, final) => some (step :: steps, final)

/-- Consecutive ticks of `watchCryptoPrice`: the calls and the state after each of
them, and the final state. -/
def watchCryptoPriceTicks : List (Discord × (GeckoPriceResults × Bool)) → CryptoLoop →
    Option (List (List Call × CryptoLoop) × CryptoLoop)
  | [], st => some ([], st)
  | (dg, fetch) :: rest, st =>
    match watchCryptoPriceTick dg fetch st with
    | none => none
    | some step =>
      match watchCryptoPriceTicks rest step.2 with
      | none => none
      | some (steps, final) => some (step :: steps, final)

/-! ## `Shutdown` and the channel `close` -/

/-- Where the goroutine of a watcher is: in the set-up before the loop, returned from
the set-up on an error, waiting in the `select`, inside a tick, or returned from the
loop after receiving from `close`. -/
inductive Phase where
  | setup
  | aborted
  | polling
  | midTick
  | stopped
  deriving DecidableEq, Repr

/-- A watcher as `Shutdown` sees it: the phase of its goroutine and the number of
values waiting in the channel `close`, which `make(chan int, 1)` gives room for one. -/
structure Watcher where
  phase : Phase
  close : Nat
  deriving DecidableEq, Repr

/-- The method `Shutdown` of `Stock` and of `Token`: the send `close <- 1`.  With room
in the buffer the value is stored and the call returns; with the buffer full the
sender cannot proceed, which is `none` (the caller blocks).  The channel is never
closed, so the send cannot panic. -/
def Shutdown (w : Watcher) : Option Watcher :=
  if w.close < 1 then some { w with close := w.close + 1 } else none

/-- A run of `n` successive calls of `Shutdown` with no step of the watcher goroutine in
between: the state after them, or `none` when one of the calls blocks. -/
def ShutdownTimes : Nat → Watcher → Option Watcher
  | 0, w => some w
  | n + 1, w =>
    match Shutdown w with
    | none => none
    | some w2 => ShutdownTimes n w2

/-- A step of the watcher goroutine: the set-up ends well or with an early `return`,
the ticker fires, the tick body ends, or `case <-close` is taken. -/
inductive LoopEvent where
  | setupDone
  | setupFailed
  | tickFires
  | tickEnds
  | closeReceived
  deriving DecidableEq, Repr

/-- Effect of a step of the watcher goroutine; a step that is not possible in the
current state changes nothing.  The only receive from `close` is the one in the
`select` of the loop, and it ends the loop. -/
def loopStep : LoopEvent → Watcher → Watcher
  | LoopEvent.setupDone, ⟨Phase.setup, c⟩ => ⟨Phase.polling, c⟩
  | LoopEvent.setupFailed, ⟨Phase.setup, c⟩ => ⟨Phase.aborted, c⟩
  | LoopEvent.tickFires, ⟨Phase.polling, c⟩ => ⟨Phase.midTick, c⟩
  | LoopEvent.tickEnds, ⟨Phase.midTick, c⟩ => ⟨Phase.polling, c⟩
  | LoopEvent.closeReceived, ⟨Phase.polling, c + 1⟩ => ⟨Phase.stopped, c⟩
  | _, w => w

/-- An event of a schedule: a caller invokes `Shutdown`, or the watcher goroutine
takes a step. -/
inductive Event where
  | call
  | loop (e : LoopEvent)
  deriving DecidableEq, Repr

/-- The state after a schedule of events, or `none` when some call of `Shutdown` in it
finds the buffer full and blocks. -/
def runSchedule : List Event → Watcher → Option Watcher
  | [], w => some w
  | Event.call :: rest, w =>
    match Shutdown w with
    | none => none
    | some w2 => runSchedule rest w2
  | Event.loop e :: rest, w => runSchedule rest (loopStep e w)

/-- Number of calls of `Shutdown` in a schedule. -/
def callCount : List Event → Nat
  | [] => 0
  | Event.call :: rest => callCount rest + 1
  | Event.loop _ :: rest => callCount rest

/-- An upper bound on the calls of `Shutdown` that can still return: the free room in
the buffer, plus one while the loop may still receive from `close`. -/
def returnsLeft (w : Watcher) : Nat :=
  (1 - w.close)
    + (match w.phase with
       | Phase.setup => 1
       | Phase.polling => 1
       | Phase.midTick => 1
       | Phase.aborted => 0
       | Phase.stopped => 0)

/-! ## Sample inputs -/

/-- A chat platform on which every nickname update succeeds and no roles are listed. -/
def quietDiscord : Discord :=
  { nicknameErr := fun _ => false
    guildRoles := fun _ => none }

/-- A single guild. -/
def oneGuild : List Guild :=
  [{ ID := "g1", Name := "Guild One" }]

/-- A crypto quote with the given USD and BTC prices and no change. -/
def geckoQuote (usd btc : ℚ) : GeckoPriceResults :=
  { Symbol := "doge"
    MarketData :=
      { CurrentPrice := { USD := usd, BTC := btc }
        PriceChangeCurrency := { USD := 0, BTC := 0 }
        PriceChangePercent := 0 } }

/-- The zero value of `utils.GeckoPriceResults`, what a failed fetch leaves in `priceData`. -/
def zeroQuote : GeckoPriceResults :=
  { Symbol := ""
    MarketData :=
      { CurrentPrice := { USD := 0, BTC := 0 }
        PriceChangeCurrency := { USD := 0, BTC := 0 }
        PriceChangePercent := 0 } }

/-- A crypto watcher in nickname mode with automatic arrows. -/
def sampleCrypto (Bitcoin : Bool) : Stock :=
  { Ticker := "DOGE"
    Name := "dogecoin"
    Nickname := true
    Color := false
    Decorator := ""
    Frequency := seconds 60
    Currency := "USD"
    Bitcoin := Bitcoin
    Activity := ""
    ExtendActivity := false
    token := "t" }

/-- A token watcher in nickname mode with automatic arrows and the given precision. -/
def sampleToken (Decimals : Int) : Token :=
  { Network := "1"
    Contract := "0xabc"
    Name := "TKN"
    Nickname := true
    Frequency := seconds 60
    Color := false
    Decorator := ""
    Decimals := Decimals
    Activity := ""
    Source := "1inch"
    token := "t" }

/-- A token tick on which the aggregator answers `payload` without error. -/
def oneInchFetch (payload : String) : TokenFetch :=
  { pancake := ("", false)
    bnbRate := (zeroQuote, false)
    oneInch := (payload, false) }

/-- A token tick on which the aggregator fetch returns an error and an empty payload. -/
def oneInchFailed : TokenFetch :=
  { pancake := ("", false)
    bnbRate := (zeroQuote, false)
    oneInch := ("", true) }

/-- An equity watcher in nickname mode with automatic arrows. -/
def sampleStock : Stock :=
  { Ticker := "AAPL"
    Name := "aapl"
    Nickname := true
    Color := false
    Decorator := ""
    Frequency := seconds 60
    Currency := "USD"
    Bitcoin := false
    Activity := ""
    ExtendActivity := false
    token := "t" }

/-- A regular-session equity quote with price `123.45` and change `-1.20`. -/
def sampleStockQuote : PriceResults :=
  { QuoteSummary :=
      { Results :=
          [{ Price :=
              { RegularMarketPrice := { Raw := 12345 / 100, Fmt := "123.45" }
                MarketState := "REGULAR"
                PostMarketChangePercent := { Raw := 0, Fmt := "" }
                PostMarketChange := { Raw := 0, Fmt := "" }
                PreMarketChangePercent := { Raw := 0, Fmt := "" }
                PreMarketChange := { Raw := 0, Fmt := "" }
                RegularMarketChangePercent := { Raw := -96 / 10000, Fmt := "-0.96%" }
                RegularMarketChange := { Raw := -120 / 100, Fmt := "-1.20" }
                MarketCap := { Raw := 2500000000000, Fmt := "2.5T" }
                CirculatingSupply := { Raw := 0, Fmt := "" }
                Volume24Hr := { Raw := 0, Fmt := "" }
                RegularMarketOpen := { Raw := 12465 / 100, Fmt := "124.65" } } }] } }

/-! ## Fixed-point rendering -/

theorem roundHalfEven_mul (k a b : Nat) (hk : 0 < k) :
    roundHalfEven (k * a) (k * b) = roundHalfEven a b := by
  unfold roundHalfEven
  rw [Nat.mul_mod_mul_left, Nat.mul_div_mul_left _ _ hk]
  have e : 2 * (k * (a % b)) = k * (2 * (a % b)) := by ring
  have h1 : (2 * (k * (a % b)) < k * b) ↔ (2 * (a % b) < b) := by
    rw [e]
    exact Nat.mul_lt_mul_left hk
  have h2 : (k * b < 2 * (k * (a % b))) ↔ (b < 2 * (a % b)) := by
    rw [e]
    exact Nat.mul_lt_mul_left hk
  simp only [h1, h2]

theorem roundHalfEven_cross (a b c e : Nat) (hb : 0 < b) (he : 0 < e) (h : a * e = c * b) :
    roundHalfEven a b = roundHalfEven c e := by
  rw [← roundHalfEven_mul e a b he, ← roundHalfEven_mul b c e hb, Nat.mul_comm e a, h,
    Nat.mul_comm c b, Nat.mul_comm e b]

theorem scaled_div (d : Nat) (q : ℚ) (n m : Nat) (hm : 0 < m) (hq : |q| = (n : ℚ) / (m : ℚ)) :
    scaled d q = roundHalfEven (n * 10 ^ d) m := by
  unfold scaled
  apply roundHalfEven_cross _ _ _ _ q.den_pos hm
  have hm0 : (m : ℚ) ≠ 0 := by exact_mod_cast hm.ne'
  have hd : (q.den : ℚ) ≠ 0 := by exact_mod_cast q.den_pos.ne'
  have habs : |q| = (q.num.natAbs : ℚ) / (q.den : ℚ) := by
    conv_lhs => rw [← Rat.num_div_den q]
    rw [abs_div, Nat.abs_cast, Nat.cast_natAbs, Int.cast_abs]
  rw [habs, div_eq_div_iff hd hm0] at hq
  have hc : ((q.num.natAbs * m : ℕ) : ℚ) = ((n * q.den : ℕ) : ℚ) := by
    push_cast
    exact hq
  have h2 : q.num.natAbs * m = n * q.den := by exact_mod_cast hc
  calc q.num.natAbs * 10 ^ d * m = (q.num.natAbs * m) * 10 ^ d := by ring
    _ = n * q.den * 10 ^ d := by rw [h2]
    _ = n * 10 ^ d * q.den := by ring

/-- Rendering of a non-negative fraction `n / m` given by natural numbers. -/
theorem fmtFixed_nonneg (d : Nat) (q : ℚ) (n m : Nat) (hm : 0 < m) (hq : q = (n : ℚ) / (m : ℚ)) :
    fmtFixed d q = String.mk (fixedChars d false (roundHalfEven (n * 10 ^ d) m)) := by
  have h0 : 0 ≤ q := by
    rw [hq]
    positivity
  unfold fmtFixed
  rw [scaled_div d q n m hm (by rw [abs_of_nonneg h0]; exact hq)]
  simp [not_lt.mpr h0]

/-- Rendering of a negative fraction `-(n / m)` given by natural numbers. -/
theorem fmtFixed_neg (d : Nat) (q : ℚ) (n m : Nat) (hm : 0 < m) (hq : q = -((n : ℚ) / (m : ℚ)))
    (hn : q < 0) :
    fmtFixed d q = String.mk (fixedChars d true (roundHalfEven (n * 10 ^ d) m)) := by
  unfold fmtFixed
  rw [scaled_div d q n m hm (by rw [abs_of_neg hn, hq, neg_neg])]
  simp [hn]

theorem fmtFixed_zero_2 : fmtFixed 2 0 = "0.00" := by
  rw [fmtFixed_nonneg 2 0 0 1 (by norm_num) (by norm_num)]
  decide

theorem fmtFixed_zero_4 : fmtFixed 4 0 = "0.0000" := by
  rw [fmtFixed_nonneg 4 0 0 1 (by norm_num) (by norm_num)]
  decide

theorem fmtFixed_zero_8 : fmtFixed 8 0 = "0.00000000" := by
  rw [fmtFixed_nonneg 8 0 0 1 (by norm_num) (by norm_num)]
  decide

theorem digitChar_isDigit (n : Nat) : (digitChar n).isDigit = true := by
  unfold digitChar
  split <;> decide

theorem digitChar_ne_point (n : Nat) : digitChar n ≠ '.' := by
  unfold digitChar
  split <;> decide

theorem padDigits_length (d n : Nat) : (padDigits d n).length = d := by
  induction d generalizing n with
  | zero => simp [padDigits]
  | succ d ih => simp [padDigits, ih]

theorem padDigits_isDigit (d n : Nat) : ∀ c ∈ padDigits d n, c.isDigit = true := by
  induction d generalizing n with
  | zero => simp [padDigits]
  | succ d ih =>
    intro c hc
    simp only [padDigits, List.mem_append, List.mem_singleton] at hc
    rcases hc with hc | hc
    · exact ih _ c hc
    · rw [hc]
      exact digitChar_isDigit n

theorem natCharsAux_no_point (fuel n : Nat) : '.' ∉ natCharsAux fuel n := by
  induction fuel generalizing n with
  | zero =>
    simp only [natCharsAux, List.mem_singleton]
    exact fun h => digitChar_ne_point n h.symm
  | succ fuel ih =>
    unfold natCharsAux
    split
    · simp only [List.mem_singleton]
      exact fun h => digitChar_ne_point n h.symm
    · simp only [List.mem_append, List.mem_singleton, not_or]
      exact ⟨ih _, fun h => digitChar_ne_point n h.symm⟩

/-- Shape of `%.<d>f` for `d ≥ 1`: text without a point, a point, then exactly `d`
decimal digits. -/
theorem fmtFixed_shape (d : Nat) (q : ℚ) (hd : d ≠ 0) :
    ∃ whole frac : List Char,
      fmtFixed d q = String.mk (whole ++ '.' :: frac) ∧ '.' ∉ whole ∧ frac.length = d
        ∧ ∀ c ∈ frac, c.isDigit = true := by
  refine ⟨(if decide (q < 0) = true then ['-'] else []) ++ natChars (scaled d q / 10 ^ d),
    padDigits d (scaled d q % 10 ^ d), ?_, ?_, padDigits_length _ _, padDigits_isDigit _ _⟩
  · simp [fmtFixed, fixedChars, hd]
  · simp only [List.mem_append, not_or]
    refine ⟨?_, natCharsAux_no_point _ _⟩
    split <;> simp

/-! ## Rotation: two ticks per custom message -/

theorem rotate_even {α : Type} (custom : List α) (live : α) (i : Nat) (h : i < custom.length) :
    rotate custom live i (2 * i) = some (custom[i], i, 2 * i + 1) := by
  have h0 : custom.length > 0 := by omega
  have h1 : i ≠ custom.length := by omega
  have h2 : ¬ (2 * i % 2 = 1) := by omega
  simp [rotate, h0, h1, h2, List.getElem?_eq_getElem h]

theorem rotate_odd {α : Type} (custom : List α) (live : α) (i : Nat) (h : i < custom.length) :
    rotate custom live i (2 * i + 1) = some (custom[i], i + 1, 2 * (i + 1)) := by
  have h0 : custom.length > 0 := by omega
  have h1 : i ≠ custom.length := by omega
  have h2 : (2 * i + 1) % 2 = 1 := by omega
  simp [rotate, h0, h1, h2, List.getElem?_eq_getElem h]
  omega

theorem rotate_full {α : Type} (custom : List α) (live : α) (seed : Nat) :
    rotate custom live custom.length seed
      = some (live, 0, if custom.length > 0 then 0 else seed) := by
  by_cases h0 : custom.length > 0 <;> simp [rotate, h0]
  all_goals simp_all

theorem rotateRun_customs (custom : List String) :
    ∀ (n i : Nat) (live : Nat → String), i + n = custom.length →
      rotateRun custom live (2 * n) (i, 2 * i)
        = some (doubled (custom.drop i), (custom.length, 2 * custom.length)) := by
  intro n
  induction n with
  | zero =>
    intro i live h
    have : i = custom.length := by omega
    subst this
    simp [rotateRun, doubled]
  | succ n ih =>
    intro i live h
    have hi : i < custom.length := by omega
    have e : 2 * (n + 1) = (2 * n + 1) + 1 := by ring
    rw [e, rotateRun]
    simp only [rotate_even custom _ i hi]
    rw [rotateRun]
    simp only [rotate_odd custom _ i hi]
    rw [ih (i + 1) _ (by omega)]
    rw [List.drop_eq_getElem_cons hi]
    simp [doubled]

/-! ## C1: rotation of the crypto and token loops over `2K` ticks -/

/-- C1, refuted as stated: with one custom message the two ticks after the reset state
both publish the custom message and none the live status, and the counters are then
`(1, 2)`; so there is no run of `2K = 2` ticks that ends in `(0, 0)` having shown the
live status once. -/
theorem C1_alternation_counterexample :
    rotateRun ["gm"] (fun _ => "$1.00 (2.00%)") 2 (0, 0) = some (["gm", "gm"], (1, 2))
      ∧ ¬ ∃ shown, rotateRun ["gm"] (fun _ => "$1.00 (2.00%)") 2 (0, 0) = some (shown, (0, 0))
          ∧ shown.count "$1.00 (2.00%)" = 1 := by
  have h : rotateRun ["gm"] (fun _ => "$1.00 (2.00%)") 2 (0, 0) = some (["gm", "gm"], (1, 2)) := by
    decide
  refine ⟨h, ?_⟩
  rintro ⟨shown, hs, -⟩
  rw [h] at hs
  simp at hs

/-- C1, amended: from the reset state `(itr, itrSeed) = (0, 0)` the first `2K` ticks
publish the custom messages only, each on two consecutive ticks in order, whatever the
live statuses are; the counters are then `(K, 2K)`; and the next tick publishes the live
status and resets the counters to `(0, 0)`. -/
theorem C1_customs_then_live (custom : List String) (live : Nat → String) :
    rotateRun custom live (2 * custom.length) (0, 0)
        = some (doubled custom, (custom.length, 2 * custom.length))
      ∧ rotate custom (live (2 * custom.length)) custom.length (2 * custom.length)
          = some (live (2 * custom.length), 0, 0) := by
  constructor
  · have h := rotateRun_customs custom custom.length 0 live (by omega)
    simpa using h
  · rw [rotate_full]
    by_cases h0 : custom.length > 0
    · simp [h0]
    · have : custom.length = 0 := by omega
      simp [this]

/-! ## C2, C9: the price text of the crypto loop -/

theorem convert_zero (pd : GeckoPriceResults) : convert 0 pd = pd := by
  simp [convert]

/-- C2, refuted as stated: for the USD price `0.0000042` with no conversion and
Bitcoin-pair mode off the price text is not `"0.00042000¢"`. -/
theorem C2_eight_digits_counterexample :
    (cryptoText false (convert 0 (geckoQuote (42 / 10000000) 0))).fmtPrice ≠ "0.00042000¢" := by
  have hf : fmtFixed 6 ((42 / 10000000 : ℚ) * 100) = "0.000420" := by
    rw [fmtFixed_nonneg 6 _ 42 100000 (by norm_num) (by norm_num)]
    decide
  have hlt : ((42 / 10000000 : ℚ)) < 1 / 100 := by norm_num
  have hge : ¬ ((42 / 10000000 : ℚ) * 100 < 1 / 100000) := by norm_num
  rw [convert_zero]
  simp only [cryptoText, geckoQuote, Bool.false_eq_true, if_false, if_pos hlt, if_neg hge, hf]
  decide

/-- C2, amended: with no conversion and Bitcoin-pair mode off, a quote whose USD price
is `0.0000042` is rescaled to `0.00042`, which is not below `0.00001`, so the price
text has six fractional digits: `"0.000420¢"`. -/
theorem C2_sub_cent_six_digits (pd : GeckoPriceResults)
    (h : pd.MarketData.CurrentPrice.USD = 42 / 10000000) :
    (convert 0 pd).MarketData.CurrentPrice.USD * 100 = 42 / 100000
      ∧ ¬ ((convert 0 pd).MarketData.CurrentPrice.USD * 100 < 1 / 100000)
      ∧ (cryptoText false (convert 0 pd)).fmtPrice = "0.000420¢" := by
  have hf : fmtFixed 6 (pd.MarketData.CurrentPrice.USD * 100) = "0.000420" := by
    rw [fmtFixed_nonneg 6 _ 42 100000 (by norm_num) (by rw [h]; norm_num)]
    decide
  have hlt : pd.MarketData.CurrentPrice.USD < 1 / 100 := by
    rw [h]
    norm_num
  have hge : ¬ (pd.MarketData.CurrentPrice.USD * 100 < 1 / 100000) := by
    rw [h]
    norm_num
  rw [convert_zero]
  refine ⟨by rw [h]; norm_num, hge, ?_⟩
  simp only [cryptoText, Bool.false_eq_true, if_false, if_pos hlt, if_neg hge, hf]
  decide

/-- C2, the amended statement at the sample quote. -/
theorem C2_sub_cent_six_digits_witness :
    (convert 0 (geckoQuote (42 / 10000000) 0)).MarketData.CurrentPrice.USD * 100 = 42 / 100000
      ∧ ¬ ((convert 0 (geckoQuote (42 / 10000000) 0)).MarketData.CurrentPrice.USD * 100
            < 1 / 100000)
      ∧ (cryptoText false (convert 0 (geckoQuote (42 / 10000000) 0))).fmtPrice = "0.000420¢" :=
  C2_sub_cent_six_digits (geckoQuote (42 / 10000000) 0) rfl

/-! ## C3: the exchange rate -/

/-- C3, refuted as stated: in Bitcoin-pair mode a crypto tick with exchange rate `2`
displays the raw BTC price `1` unconverted (`"₿1.000000"`, the same text as with no
rate), not two times it (`"₿2.000000"`). -/
theorem C3_bitcoin_pair_counterexample :
    (cryptoText true (convert 2 (geckoQuote 3 1))).fmtPrice = "₿1.000000"
      ∧ (cryptoText true (convert 2 (geckoQuote 3 1))).fmtPrice
          = (cryptoText true (convert 0 (geckoQuote 3 1))).fmtPrice
      ∧ "₿" ++ fmtFixed 6 (2 * (geckoQuote 3 1).MarketData.CurrentPrice.BTC) = "₿2.000000" := by
  have h1 : fmtFixed 6 (1 : ℚ) = "1.000000" := by
    rw [fmtFixed_nonneg 6 _ 1 1 (by norm_num) (by norm_num)]
    decide
  have h2 : fmtFixed 6 (2 * 1 : ℚ) = "2.000000" := by
    rw [fmtFixed_nonneg 6 _ 2 1 (by norm_num) (by norm_num)]
    decide
  refine ⟨?_, ?_, ?_⟩
  · simp only [cryptoText, convert, geckoQuote, if_true, h1]
    decide
  · simp [cryptoText, convert, geckoQuote]
  · simp only [geckoQuote, h2]
    decide

/-! ## C9: the four cases of the USD price text -/

/-- C9: with Bitcoin-pair mode off, for every USD price `p` of the quote exactly one
of the four cases holds, and in each case the price text is the one the case names:
(1) `p < 0.01` and `100 p < 0.00001`: eight fractional digits of `100 p` and `¢`;
(2) `p < 0.01` and `100 p ≥ 0.00001`: six fractional digits of `100 p` and `¢`;
(3) `0.01 ≤ p < 1`: `$` and three fractional digits of `p`;
(4) `p ≥ 1`: `$` and two fractional digits of `p`. -/
theorem C9_usd_price_cases (pd : GeckoPriceResults) (p : ℚ)
    (hp : pd.MarketData.CurrentPrice.USD = p) :
    ((p < 1 / 100 ∧ p * 100 < 1 / 100000) →
        (cryptoText false pd).fmtPrice = fmtFixed 8 (p * 100) ++ "¢")
      ∧ ((p < 1 / 100 ∧ 1 / 100000 ≤ p * 100) →
        (cryptoText false pd).fmtPrice = fmtFixed 6 (p * 100) ++ "¢")
      ∧ ((1 / 100 ≤ p ∧ p < 1) → (cryptoText false pd).fmtPrice = "$" ++ fmtFixed 3 p)
      ∧ (1 ≤ p → (cryptoText false pd).fmtPrice = "$" ++ fmtFixed 2 p)
      ∧ (((p < 1 / 100 ∧ p * 100 < 1 / 100000) ∧ ¬ (p < 1 / 100 ∧ 1 / 100000 ≤ p * 100)
            ∧ ¬ (1 / 100 ≤ p ∧ p < 1) ∧ ¬ (1 ≤ p))
          ∨ (¬ (p < 1 / 100 ∧ p * 100 < 1 / 100000) ∧ (p < 1 / 100 ∧ 1 / 100000 ≤ p * 100)
            ∧ ¬ (1 / 100 ≤ p ∧ p < 1) ∧ ¬ (1 ≤ p))
          ∨ (¬ (p < 1 / 100 ∧ p * 100 < 1 / 100000) ∧ ¬ (p < 1 / 100 ∧ 1 / 100000 ≤ p * 100)
            ∧ (1 / 100 ≤ p ∧ p < 1) ∧ ¬ (1 ≤ p))
          ∨ (¬ (p < 1 / 100 ∧ p * 100 < 1 / 100000) ∧ ¬ (p < 1 / 100 ∧ 1 / 100000 ≤ p * 100)
            ∧ ¬ (1 / 100 ≤ p ∧ p < 1) ∧ (1 ≤ p))) := by
  subst hp
  refine ⟨?_, ?_, ?_, ?_, ?_⟩
  · rintro ⟨h1, h2⟩
    simp only [cryptoText, Bool.false_eq_true, if_false, if_pos h1, if_pos h2]
  · rintro ⟨h1, h2⟩
    simp only [cryptoText, Bool.false_eq_true, if_false, if_pos h1, if_neg (not_lt.mpr h2)]
  · rintro ⟨h1, h2⟩
    simp only [cryptoText, Bool.false_eq_true, if_false, if_neg (not_lt.mpr h1), if_pos h2]
  · intro h1
    have h2 : ¬ (pd.MarketData.CurrentPrice.USD < 1 / 100) := by
      apply not_lt.mpr
      linarith
    simp only [cryptoText, Bool.false_eq_true, if_false, if_neg h2, if_neg (not_lt.mpr h1)]
  · by_cases h1 : pd.MarketData.CurrentPrice.USD < 1 / 100
    · have h4 : ¬ (1 ≤ pd.MarketData.CurrentPrice.USD) := by
        apply not_le.mpr
        linarith
      by_cases h2 : pd.MarketData.CurrentPrice.USD * 100 < 1 / 100000
      · left
        exact ⟨⟨h1, h2⟩, fun h => absurd h2 (not_lt.mpr h.2),
          fun h => absurd h1 (not_lt.mpr h.1), h4⟩
      · right
        left
        exact ⟨fun h => h2 h.2, ⟨h1, not_lt.mp h2⟩, fun h => absurd h1 (not_lt.mpr h.1), h4⟩
    · by_cases h3 : pd.MarketData.CurrentPrice.USD < 1
      · right
        right
        left
        exact ⟨fun h => h1 h.1, fun h => h1 h.1, ⟨not_lt.mp h1, h3⟩, not_le.mpr h3⟩
      · right
        right
        right
        exact ⟨fun h => h1 h.1, fun h => h1 h.1, fun h => h3 h.2, not_lt.mp h3⟩

/-- C9 at the price `1/2`: the third case applies and the text is `"$0.500"`. -/
theorem C9_usd_price_cases_witness :
    (cryptoText false (geckoQuote (1 / 2) 0)).fmtPrice = "$" ++ fmtFixed 3 (1 / 2) :=
  (C9_usd_price_cases (geckoQuote (1 / 2) 0) (1 / 2) rfl).2.2.1 (by norm_num)

/-! ## C4, C5: ticks whose fetch or parse fails -/

theorem parseFloat_empty : parseFloat "" = (0, true) := by
  have h : parseDecimal "" = none := by decide
  simp [parseFloat, h]

theorem parseFloat_abc : parseFloat "abc" = (0, true) := by
  have h : parseDecimal "abc" = none := by decide
  simp [parseFloat, h]

theorem parseFloat_2500000 : parseFloat "2500000" = (2500000, false) := by
  have h : parseDecimal "2500000" = some ⟨false, 2500000, 0⟩ := by decide
  simp [parseFloat, h]

theorem parseFloat_minus_one : parseFloat "-1" = (-1, false) := by
  have h : parseDecimal "-1" = some ⟨true, 1, 0⟩ := by decide
  simp [parseFloat, h]

theorem fmtFixed_quarter_4 : fmtFixed 4 (1 / 4) = "0.2500" := by
  rw [fmtFixed_nonneg 4 _ 1 4 (by norm_num) (by norm_num)]
  decide

/-- C4, the failing ticks: a crypto tick whose fetch returns an error (and the zero
quote) still publishes a nickname and an activity, built from the price `0`; and a
token tick on the default backend whose
fetch returns an error does the same; whereas the pancakeswap branch of the token tick
leaves the tick on a fetch error, and the equity tick leaves it when the quote has no
results. -/
theorem C4_fetch_error_still_publishes :
    (watchCryptoPriceTick quietDiscord (zeroQuote, true)
        (watchCryptoPriceInit (sampleCrypto false) "bot" (some oneGuild) 0)).map Prod.fst
      = some [Call.GuildMemberNickname "g1" "@me" "DOGE ⬈ 0.00000000¢",
              Call.UpdateGameStatus 0 "$0.00 (0.00%)"]
    ∧ (watchTokenPriceTick quietDiscord oneInchFailed
        (watchTokenPriceInit (sampleToken 4) "bot" (some oneGuild))).map TokenStep.calls
      = some [Call.GuildMemberNickname "g1" "@me" "TKN ⬈ $0.0000",
              Call.UpdateGameStatus 0 "Using USDC on 1inch"]
    ∧ (∀ (dg : Discord) (st : TokenLoop) (payload : String) (bnb : GeckoPriceResults × Bool)
        (one : String × Bool),
        watchTokenPriceTick dg { pancake := (payload, true), bnbRate := bnb, oneInch := one }
            { st with m := { st.m with Source := "pancakeswap" } }
          = some { calls := [], increase := none,
                   next := { st with m := { st.m with Source := "pancakeswap" } } })
    ∧ (∀ (dg : Discord) (st : StockLoop) (err : Bool),
        watchStockPriceTick dg (⟨⟨[]⟩⟩, err) st = some ([], st)) := by
  refine ⟨?_, ?_, ?_, ?_⟩
  · have h8 : fmtFixed 8 ((0 : ℚ) * 100) = "0.00000000" := by
      rw [zero_mul]
      exact fmtFixed_zero_8
    have hlt : ((0 : ℚ)) < 1 / 100 := by norm_num
    have hlt2 : ((0 : ℚ) * 100) < 1 / 100000 := by norm_num
    simp only [watchCryptoPriceTick, watchCryptoPriceInit, sampleCrypto, zeroQuote, convert_zero,
      cryptoText, Bool.false_eq_true, if_false, if_pos hlt, if_pos hlt2, h8, fmtFixed_zero_2]
    decide
  · have hp : tokenFmtPrice (watchTokenPriceInit (sampleToken 4) "bot" (some oneGuild)).m
        oneInchFailed = some 0 := by
      simp [tokenFmtPrice, watchTokenPriceInit, sampleToken, oneInchFailed, parseFloat_empty]
    have hinc : decide ((0 : ℚ) ≥ 0) = true := by simp
    unfold watchTokenPriceTick
    rw [hp]
    simp only [watchTokenPriceInit, sampleToken, hinc, tokenNickname, fmtFixed_zero_4]
    decide
  · intro dg st payload bnb one
    simp [watchTokenPriceTick, tokenFmtPrice]
  · intro dg st err
    simp [watchStockPriceTick]

theorem tokenFmtPrice_quarter (m : Token) (hm : m.Source = "1inch") :
    tokenFmtPrice m (oneInchFetch "2500000") = some (1 / 4) := by
  simp [tokenFmtPrice, hm, oneInchFetch, parseFloat_2500000]
  norm_num

theorem tokenFmtPrice_abc (m : Token) (hm : m.Source = "1inch") :
    tokenFmtPrice m (oneInchFetch "abc") = some 0 := by
  simp [tokenFmtPrice, hm, oneInchFetch, parseFloat_abc]

/-- The first tick of the sample token watcher on the payload `"2500000"`. -/
theorem sampleToken_first_tick :
    watchTokenPriceTick quietDiscord (oneInchFetch "2500000")
        (watchTokenPriceInit (sampleToken 4) "bot" (some oneGuild))
      = some
          { calls := [Call.GuildMemberNickname "g1" "@me" "TKN ⬈ $0.2500",
                      Call.UpdateGameStatus 0 "Using USDC on 1inch"]
            increase := some true
            next :=
              { watchTokenPriceInit (sampleToken 4) "bot" (some oneGuild) with
                m := { sampleToken 4 with Decorator := "⬈" }
                oldPrice := 1 / 4 } } := by
  have hinc : decide ((1 / 4 : ℚ) ≥ 0) = true := by
    simp
  unfold watchTokenPriceTick
  rw [tokenFmtPrice_quarter _ rfl]
  simp only [watchTokenPriceInit, sampleToken, hinc, tokenNickname, fmtFixed_quarter_4]
  rfl

/-- C5, the failing tick: on the default backend, after a tick with payload
`"2500000"` (price `0.25`), a tick whose payload `"abc"` is not a number is not left:
it publishes the nickname price `$0.0000` with the down arrow, and the remembered
price becomes `0`. -/
theorem C5_parse_error_still_publishes :
    (watchTokenPriceTicks
        [(quietDiscord, oneInchFetch "2500000"), (quietDiscord, oneInchFetch "abc")]
        (watchTokenPriceInit (sampleToken 4) "bot" (some oneGuild))).map
          (fun r => (r.1.map TokenStep.calls, r.2.oldPrice))
      = some ([[Call.GuildMemberNickname "g1" "@me" "TKN ⬈ $0.2500",
                Call.UpdateGameStatus 0 "Using USDC on 1inch"],
               [Call.GuildMemberNickname "g1" "@me" "TKN ⬊ $0.0000",
                Call.UpdateGameStatus 0 "Using USDC on 1inch"]], 0) := by
  have hinc : decide ((0 : ℚ) ≥ 1 / 4) = false := by
    simp
  have h2 : watchTokenPriceTick quietDiscord (oneInchFetch "abc")
      { watchTokenPriceInit (sampleToken 4) "bot" (some oneGuild) with
        m := { sampleToken 4 with Decorator := "⬈" }
        oldPrice := 1 / 4 }
      = some
          { calls := [Call.GuildMemberNickname "g1" "@me" "TKN ⬊ $0.0000",
                      Call.UpdateGameStatus 0 "Using USDC on 1inch"]
            increase := some false
            next :=
              { watchTokenPriceInit (sampleToken 4) "bot" (some oneGuild) with
                m := { sampleToken 4 with Decorator := "⬊" }
                oldPrice := 0 } } := by
    unfold watchTokenPriceTick
    rw [tokenFmtPrice_abc _ rfl]
    simp only [watchTokenPriceInit, sampleToken, hinc, tokenNickname, fmtFixed_zero_4]
    rfl
  simp only [watchTokenPriceTicks, sampleToken_first_tick, h2]
  rfl

/-! ## C6: the doubled entries of the equity loop -/

theorem marketCap_ne_change (cap chg pct : String) :
    "Market Cap: " ++ cap ≠ "$" ++ chg ++ " (" ++ pct ++ ")" := by
  intro h
  have h2 := congrArg (fun s : String => s.data.head?) h
  simp [String.data_append] at h2

/-- C6, the failing tick: for every equity watcher with `Nickname` and
`ExtendActivity` on and every quote with a result, the tick succeeds and afterwards
entry 2 of `activity_messages` is the market-cap text while entry 3 is a copy of
entry 0, the price-change status; the two differ.  The other four pairs are equal. -/
theorem C6_market_cap_pair_differs (s : Stock) (botUserID : String) (guilds : List Guild)
    (exRate : ℚ) (dg : Discord) (r : StockResult) (rs : List StockResult) (err : Bool) :
    ∃ calls next,
      watchStockPriceTick dg (⟨⟨r :: rs⟩⟩, err)
          (watchStockPriceInit { s with Nickname := true, ExtendActivity := true } botUserID
            (some guilds) exRate)
        = some (calls, next)
      ∧ next.activity_messages[2]? = some ("Market Cap: " ++ r.Price.MarketCap.Fmt)
      ∧ next.activity_messages[3]?
          = some ("$" ++ (stockDiff r.Price).2 ++ " (" ++ (stockDiff r.Price).1 ++ ")")
      ∧ next.activity_messages[3]? = next.activity_messages[0]?
      ∧ next.activity_messages[2]? ≠ next.activity_messages[3]?
      ∧ next.activity_messages[0]? = next.activity_messages[1]?
      ∧ next.activity_messages[4]? = next.activity_messages[5]?
      ∧ next.activity_messages[6]? = next.activity_messages[7]?
      ∧ next.activity_messages[8]? = next.activity_messages[9]? := by
  simp [watchStockPriceTick, watchStockPriceInit, stockMessages, fillMessages, setAt]
  refine ⟨_, _, ⟨rfl, rfl⟩, ?_⟩
  simp
  exact marketCap_ne_change _ _ _

/-! ## C7, C8: the precision of the token nickname -/

theorem tokenNickname_eq (m : Token) (Decorator : String) (fmtPrice : ℚ) :
    tokenNickname m Decorator fmtPrice
      = m.Name ++ " " ++ Decorator ++ " $"
          ++ fmtFixed (if 1 ≤ m.Decimals ∧ m.Decimals ≤ 11 then m.Decimals.toNat else 4)
              fmtPrice := by
  by_cases hr : 1 ≤ m.Decimals ∧ m.Decimals ≤ 11
  · rw [if_pos hr]
    obtain ⟨k, hk⟩ : ∃ k : Nat, m.Decimals = (k : Int) := ⟨m.Decimals.toNat, by omega⟩
    have hk1 : 1 ≤ k := by omega
    have hk2 : k ≤ 11 := by omega
    unfold tokenNickname
    rw [hk]
    interval_cases k <;> simp
  · rw [if_neg hr]
    have h1 : m.Decimals ≠ 1 := by omega
    have h2 : m.Decimals ≠ 2 := by omega
    have h3 : m.Decimals ≠ 3 := by omega
    have h4 : m.Decimals ≠ 4 := by omega
    have h5 : m.Decimals ≠ 5 := by omega
    have h6 : m.Decimals ≠ 6 := by omega
    have h7 : m.Decimals ≠ 7 := by omega
    have h8 : m.Decimals ≠ 8 := by omega
    have h9 : m.Decimals ≠ 9 := by omega
    have h10 : m.Decimals ≠ 10 := by omega
    have h11 : m.Decimals ≠ 11 := by omega
    simp only [tokenNickname, if_neg h1, if_neg h2, if_neg h3, if_neg h4, if_neg h5, if_neg h6,
      if_neg h7, if_neg h8, if_neg h9, if_neg h10, if_neg h11]

/-- C7, the failing call: whatever `decimals` is passed, the token returned by
`NewToken` has `Decimals = 0` (the other arguments are recorded), so a token created
with `decimals = 2` renders the price `0.25` in its nickname with four fractional
digits. -/
theorem C7_decimals_not_recorded :
    (∀ (network contract token name : String) (nickname : Bool) (frequency decimals : Int)
        (activity : String) (color : Bool) (decorator source : String),
        (NewToken network contract token name nickname frequency decimals activity color
            decorator source).Decimals = 0
          ∧ NewToken network contract token name nickname frequency decimals activity color
              decorator source
            = { Network := network, Contract := contract, Name := name, Nickname := nickname,
                Frequency := seconds frequency, Color := color, Decorator := decorator,
                Decimals := 0, Activity := activity, Source := source, token := token })
      ∧ (NewToken "1" "0xabc" "t" "TKN" true 60 2 "" false "" "1inch").Decimals ≠ 2
      ∧ tokenNickname (NewToken "1" "0xabc" "t" "TKN" true 60 2 "" false "" "1inch") "⬈" (1 / 4)
          = "TKN ⬈ $0.2500" := by
  refine ⟨fun _ _ _ _ _ _ _ _ _ _ _ => ⟨rfl, rfl⟩, by decide, ?_⟩
  rw [tokenNickname_eq]
  simp only [NewToken]
  rw [if_neg (by decide)]
  rw [fmtFixed_quarter_4]
  decide

theorem fmtFixed_quarter_2 : fmtFixed 2 (1 / 4) = "0.25" := by
  rw [fmtFixed_nonneg 2 _ 1 4 (by norm_num) (by norm_num)]
  decide

/-- C8: for every token value, decorator and computed price the nickname is
`<Name> <Decorator> $<price>`, where `<price>` is the fixed-point rendering with `d`
fractional digits when `Decimals = d` and `1 ≤ d ≤ 11`, and with `4` otherwise: a text
without a point, a point, and exactly that many decimal digits.  Every token tick in
nickname mode that computes a price sends exactly this nickname, with the decorator
and the price of that tick, to each guild (the first call made for a guild is the
nickname update), followed by one activity update; a tick left by `continue` makes
no call.  On the default backend the payload `"2500000"` gives the price
`2500000 / 10000000`; with `Decimals = 4` the tick sets the nickname `TKN ⬈ $0.2500`
and with `Decimals = 2` the nickname `TKN ⬈ $0.25`. -/
theorem C8_token_nickname_digits :
    (∀ (m : Token) (Decorator : String) (fmtPrice : ℚ),
        ∃ whole frac : List Char,
          tokenNickname m Decorator fmtPrice
              = m.Name ++ " " ++ Decorator ++ " $" ++ String.mk (whole ++ '.' :: frac)
            ∧ String.mk (whole ++ '.' :: frac)
                = fmtFixed (if 1 ≤ m.Decimals ∧ m.Decimals ≤ 11 then m.Decimals.toNat else 4)
                    fmtPrice
            ∧ '.' ∉ whole
            ∧ frac.length = (if 1 ≤ m.Decimals ∧ m.Decimals ≤ 11 then m.Decimals.toNat else 4)
            ∧ ∀ c ∈ frac, c.isDigit = true)
      ∧ (∀ (dg : Discord) (fetch : TokenFetch) (st : TokenLoop),
          (watchTokenPriceTick dg fetch { st with m := { st.m with Nickname := true } }).map
              TokenStep.calls
            = match tokenFmtPrice st.m fetch with
              | none => some []
              | some fmtPrice =>
                (rotate st.custom_activity "Using USDC on 1inch" st.itr st.itrSeed).map
                  (fun r =>
                    guildUpdates dg st.m.Color (decide (fmtPrice ≥ st.oldPrice)) st.botUserID
                        (st.m.Name ++ " "
                          ++ decorate st.arrows (decide (fmtPrice ≥ st.oldPrice)) st.m.Decorator
                          ++ " $"
                          ++ fmtFixed
                              (if 1 ≤ st.m.Decimals ∧ st.m.Decimals ≤ 11 then st.m.Decimals.toNat
                                else 4)
                              fmtPrice)
                        st.guilds
                      ++ [Call.UpdateGameStatus 0 r.1]))
      ∧ (∀ (dg : Discord) (Color increase : Bool) (botUserID nickname : String) (g : Guild),
          (guildCalls dg Color increase botUserID nickname g).head?
            = some (Call.GuildMemberNickname g.ID "@me" nickname))
      ∧ tokenFmtPrice (sampleToken 4) (oneInchFetch "2500000") = some (2500000 / 10000000)
      ∧ (watchTokenPriceTick quietDiscord (oneInchFetch "2500000")
            (watchTokenPriceInit (sampleToken 4) "bot" (some oneGuild))).map TokenStep.calls
          = some [Call.GuildMemberNickname "g1" "@me" "TKN ⬈ $0.2500",
                  Call.UpdateGameStatus 0 "Using USDC on 1inch"]
      ∧ (watchTokenPriceTick quietDiscord (oneInchFetch "2500000")
            (watchTokenPriceInit (sampleToken 2) "bot" (some oneGuild))).map TokenStep.calls
          = some [Call.GuildMemberNickname "g1" "@me" "TKN ⬈ $0.25",
                  Call.UpdateGameStatus 0 "Using USDC on 1inch"] := by
  refine ⟨?_, ?_, ?_, ?_, ?_, ?_⟩
  · intro m Decorator fmtPrice
    have hd : (if 1 ≤ m.Decimals ∧ m.Decimals ≤ 11 then m.Decimals.toNat else 4) ≠ 0 := by
      split <;> omega
    obtain ⟨whole, frac, h1, h2, h3, h4⟩ := fmtFixed_shape _ fmtPrice hd
    exact ⟨whole, frac, by rw [tokenNickname_eq, h1], h1.symm, h2, h3, h4⟩
  · intro dg fetch st
    have hs : tokenFmtPrice { st.m with Nickname := true } fetch = tokenFmtPrice st.m fetch := by
      simp [tokenFmtPrice]
    simp only [watchTokenPriceTick, hs]
    cases tokenFmtPrice st.m fetch with
    | none => rfl
    | some p =>
      simp only [if_true, tokenNickname_eq]
      cases rotate st.custom_activity "Using USDC on 1inch" st.itr st.itrSeed with
      | none => rfl
      | some r => rfl
  · intro dg Color increase botUserID nickname g
    simp [guildCalls]
  · rw [tokenFmtPrice_quarter _ rfl]
    norm_num
  · rw [sampleToken_first_tick]
    rfl
  · have hinc : decide ((1 / 4 : ℚ) ≥ 0) = true := by
      simp
    unfold watchTokenPriceTick
    rw [tokenFmtPrice_quarter _ rfl]
    simp only [watchTokenPriceInit, sampleToken, hinc, tokenNickname, fmtFixed_quarter_2]
    rfl

/-! ## C10: the direction of a token tick -/

theorem rotate_total {α : Type} (custom : List α) (live : α) (itr seed : Nat)
    (h : itr ≤ custom.length) :
    ∃ shown itr2 seed2, rotate custom live itr seed = some (shown, itr2, seed2)
      ∧ itr2 ≤ custom.length := by
  unfold rotate
  by_cases h0 : custom.length > 0
  · by_cases h1 : itr = custom.length
    · exact ⟨live, 0, 0, by simp [h0, h1], Nat.zero_le _⟩
    · have hlt : itr < custom.length := by omega
      by_cases h2 : seed % 2 = 1
      · exact ⟨custom[itr], itr + 1, seed + 1,
          by simp [h0, h1, h2, List.getElem?_eq_getElem hlt], by omega⟩
      · exact ⟨custom[itr], itr, seed + 1,
          by simp [h0, h1, h2, List.getElem?_eq_getElem hlt], h⟩
  · exact ⟨live, itr, seed, by simp [h0], h⟩

theorem tokenFmtPrice_source (m m2 : Token) (fetch : TokenFetch) (h : m.Source = m2.Source) :
    tokenFmtPrice m fetch = tokenFmtPrice m2 fetch := by
  simp [tokenFmtPrice, h]

/-- One token tick from a state whose rotation index is in range: it returns, its
direction is the comparison with the remembered price, and the remembered price
becomes the computed one (or stays when the tick is left). -/
theorem watchTokenPriceTick_spec (dg : Discord) (fetch : TokenFetch) (st : TokenLoop)
    (hinv : st.itr ≤ st.custom_activity.length) :
    ∃ step, watchTokenPriceTick dg fetch st = some step
      ∧ step.increase = (tokenFmtPrice st.m fetch).map (fun p => decide (p ≥ st.oldPrice))
      ∧ step.next.oldPrice = (tokenFmtPrice st.m fetch).getD st.oldPrice
      ∧ step.next.m.Source = st.m.Source
      ∧ step.next.itr ≤ step.next.custom_activity.length := by
  unfold watchTokenPriceTick
  cases hp : tokenFmtPrice st.m fetch with
  | none => exact ⟨_, rfl, rfl, rfl, rfl, hinv⟩
  | some p =>
    by_cases hn : st.m.Nickname = true
    · obtain ⟨shown, itr2, seed2, hr, hle⟩ :=
        rotate_total st.custom_activity "Using USDC on 1inch" st.itr st.itrSeed hinv
      simp only [hn, if_true, hr]
      exact ⟨_, rfl, rfl, rfl, rfl, hle⟩
    · simp only [hn, if_false]
      exact ⟨_, rfl, rfl, rfl, rfl, hinv⟩

theorem watchTokenPriceTicks_spec (m : Token) :
    ∀ (ticks : List (Discord × TokenFetch)) (st : TokenLoop),
      st.itr ≤ st.custom_activity.length → st.m.Source = m.Source →
      ∃ steps final, watchTokenPriceTicks ticks st = some (steps, final)
        ∧ ∀ i : Nat, (steps[i]?).map TokenStep.increase
            = (ticks[i]?).map (fun t => (tokenFmtPrice m t.2).map
                (fun p => decide (p ≥ previousPrice m st.oldPrice (ticks.take i)))) := by
  intro ticks
  induction ticks with
  | nil =>
    intro st _ _
    exact ⟨[], st, rfl, fun i => by simp⟩
  | cons t rest ih =>
    intro st hinv hsrc
    obtain ⟨dg, fetch⟩ := t
    obtain ⟨step, hstep, hinc, hold, hs, hi⟩ := watchTokenPriceTick_spec dg fetch st hinv
    obtain ⟨steps, final, hrun, hall⟩ := ih step.next hi (hs.trans hsrc)
    refine ⟨step :: steps, final, by simp [watchTokenPriceTicks, hstep, hrun], ?_⟩
    rw [tokenFmtPrice_source st.m m fetch hsrc] at hinc hold
    intro i
    cases i with
    | zero => simp [hinc, previousPrice]
    | succ j =>
      have hj := hall j
      simp only [List.getElem?_cons_succ, List.take_succ_cons]
      rw [hj, hold]
      cases hp : tokenFmtPrice m fetch <;> simp [previousPrice, hp]

/-- C10, refuted as stated: on the first tick of a token watcher the payload `"-1"`
gives a negative price, and `increase` is false. -/
theorem C10_first_tick_counterexample :
    (watchTokenPriceTick quietDiscord (oneInchFetch "-1")
        (watchTokenPriceInit (sampleToken 4) "bot" (some oneGuild))).map TokenStep.increase
      = some (some false) := by
  have hp : tokenFmtPrice (watchTokenPriceInit (sampleToken 4) "bot" (some oneGuild)).m
      (oneInchFetch "-1") = some (-1 / 10000000) := by
    simp [tokenFmtPrice, watchTokenPriceInit, sampleToken, oneInchFetch, parseFloat_minus_one]
  have hinc : decide ((-1 / 10000000 : ℚ) ≥ 0) = false := by
    rw [decide_eq_false_iff_not]
    norm_num
  obtain ⟨step, hstep, hi, -⟩ := watchTokenPriceTick_spec quietDiscord (oneInchFetch "-1")
    (watchTokenPriceInit (sampleToken 4) "bot" (some oneGuild)) (Nat.zero_le _)
  rw [hstep, Option.map_some', hi, hp]
  simp only [Option.map_some', watchTokenPriceInit, hinc]

/-- C10, amended: every run of token ticks from the start of the loop returns, and on
each tick that computes a price `increase = (currentPrice ≥ previousPrice)`, where
`previousPrice` is the price computed by the most recent earlier tick that computed
one and `0` when there is none (a tick left by `continue` computes no direction).  On
the first tick `increase = (currentPrice ≥ 0)`. -/
theorem C10_direction_is_comparison (m : Token) (botUserID : String)
    (guilds : Option (List Guild)) (ticks : List (Discord × TokenFetch)) :
    ∃ steps final,
      watchTokenPriceTicks ticks (watchTokenPriceInit m botUserID guilds) = some (steps, final)
        ∧ ∀ i : Nat, (steps[i]?).map TokenStep.increase
            = (ticks[i]?).map (fun t => (tokenFmtPrice m t.2).map
                (fun p => decide (p ≥ previousPrice m 0 (ticks.take i)))) := by
  exact watchTokenPriceTicks_spec m ticks (watchTokenPriceInit m botUserID guilds)
    (Nat.zero_le _) rfl

/-! ## C13: one cycle of the rotation is `2K + 1` ticks -/

theorem rotateRun_append {α : Type} (custom : List α) :
    ∀ (n m : Nat) (live : Nat → α) (c : Nat × Nat),
      rotateRun custom live (n + m) c
        = match rotateRun custom live n c with
          | none => none
          | some (shown, c2) =>
            match rotateRun custom (fun k => live (k + n)) m c2 with
            | none => none
            | some (shown2, c3) => some (shown ++ shown2, c3) := by
  intro n
  induction n with
  | zero =>
    intro m live c
    simp only [Nat.zero_add, rotateRun, Nat.add_zero]
    cases rotateRun custom live m c with
    | none => rfl
    | some r => simp
  | succ n ih =>
    intro m live c
    have e0 : n + 1 + m = (n + m) + 1 := by omega
    rw [e0]
    simp only [rotateRun]
    cases rotate custom (live 0) c.1 c.2 with
    | none => rfl
    | some r =>
      obtain ⟨a, itr, seed⟩ := r
      simp only [ih]
      cases rotateRun custom (fun k => live (k + 1)) n (itr, seed) with
      | none => rfl
      | some r2 =>
        obtain ⟨shown, c2⟩ := r2
        simp only []
        have e : (fun k => live (k + n + 1)) = (fun k => live (k + (n + 1))) := rfl
        rw [e]
        cases rotateRun custom (fun k => live (k + (n + 1))) m c2 with
        | none => rfl
        | some r3 => simp

theorem rotateRun_cycle (custom : List String) (live : Nat → String) :
    rotateRun custom live (2 * custom.length + 1) (0, 0)
      = some (doubled custom ++ [live (2 * custom.length)], (0, 0)) := by
  rw [rotateRun_append]
  have h := rotateRun_customs custom custom.length 0 live (by omega)
  simp only [Nat.mul_zero, List.drop_zero] at h
  rw [h]
  simp only [rotateRun, Nat.zero_add, rotate_full]
  by_cases h0 : custom.length > 0
  · simp [h0]
  · have : custom.length = 0 := by omega
    simp [this]

theorem rotateRun_total {α : Type} (custom : List α) :
    ∀ (n : Nat) (live : Nat → α) (c : Nat × Nat), c.1 ≤ custom.length →
      ∃ shown c2, rotateRun custom live n c = some (shown, c2) ∧ c2.1 ≤ custom.length := by
  intro n
  induction n with
  | zero =>
    intro live c h
    exact ⟨[], c, rfl, h⟩
  | succ n ih =>
    intro live c h
    obtain ⟨a, itr, seed, hr, hle⟩ := rotate_total custom (live 0) c.1 c.2 h
    obtain ⟨shown, c2, hrun, hle2⟩ := ih (fun k => live (k + 1)) (itr, seed) hle
    exact ⟨a :: shown, c2, by simp [rotateRun, hr, hrun], hle2⟩
theorem rotate_none_iff {α : Type} (custom : List α) (live : α) (itr seed : Nat) :
    rotate custom live itr seed = none ↔ 0 < custom.length ∧ custom.length < itr := by
  constructor
  · intro h
    by_cases hle : itr ≤ custom.length
    · obtain ⟨a, i2, s2, hr, -⟩ := rotate_total custom live itr seed hle
      rw [hr] at h
      exact absurd h (by simp)
    · by_cases h0 : custom.length > 0
      · exact ⟨h0, by omega⟩
      · simp [rotate, h0] at h
  · rintro ⟨h0, hlt⟩
    have h1 : itr ≠ custom.length := by omega
    have h2 : custom[itr]? = none := List.getElem?_eq_none (by omega)
    unfold rotate
    by_cases h3 : seed % 2 = 1 <;> simp [h0, h1, h2, h3]

/-- C13: from the counters `(0, 0)` the next `2K + 1` ticks publish
`custom[0], custom[0], ..., custom[K-1], custom[K-1]` and then the live status of the
last tick, and the counters are `(0, 0)` again; a run that goes on after these ticks
continues as a fresh run from `(0, 0)`, so the sequence has period `2K + 1`; a run of
any length returns with `itr ≤ K`, and the step reads `custom_activity[itr]` out of
range exactly when `K > 0` and `itr > K`, so every read of a run has `itr < K`; and in
nickname mode the crypto tick and the token tick publish the activity and set the
counters that this one step function gives (a token tick left by `continue` publishes
nothing and keeps the counters). -/
theorem C13_rotation_cycle (custom : List String) (live : Nat → String) (n : Nat) :
    rotateRun custom live (2 * custom.length + 1) (0, 0)
        = some (doubled custom ++ [live (2 * custom.length)], (0, 0))
      ∧ rotateRun custom live ((2 * custom.length + 1) + n) (0, 0)
          = (rotateRun custom (fun k => live (k + (2 * custom.length + 1))) n (0, 0)).map
              (fun r => (doubled custom ++ [live (2 * custom.length)] ++ r.1, r.2))
      ∧ (∃ shown c, rotateRun custom live n (0, 0) = some (shown, c) ∧ c.1 ≤ custom.length)
      ∧ (∀ (activity : String) (itr itrSeed : Nat),
          rotate custom activity itr itrSeed = none ↔ 0 < custom.length ∧ custom.length < itr)
      ∧ (∀ (dg : Discord) (fetch : GeckoPriceResults × Bool) (st : CryptoLoop),
          (watchCryptoPriceTick dg fetch { st with s := { st.s with Nickname := true } }).map
              (fun r => (r.1.getLast?, r.2.itr, r.2.itrSeed))
            = (rotate st.custom_activity
                  ((cryptoText st.s.Bitcoin (convert st.exRate fetch.1)).changeHeader
                    ++ (cryptoText st.s.Bitcoin (convert st.exRate fetch.1)).fmtChange ++ " ("
                    ++ fmtFixed 2 (convert st.exRate fetch.1).MarketData.PriceChangePercent
                    ++ "%)")
                  st.itr st.itrSeed).map
                (fun r => (some (Call.UpdateGameStatus 0 r.1), r.2.1, r.2.2)))
      ∧ (∀ (dg : Discord) (fetch : TokenFetch) (st : TokenLoop),
          (watchTokenPriceTick dg fetch { st with m := { st.m with Nickname := true } }).map
              (fun r => (r.calls.getLast?, r.next.itr, r.next.itrSeed))
            = match tokenFmtPrice st.m fetch with
              | none => some (none, st.itr, st.itrSeed)
              | some _ =>
                (rotate st.custom_activity "Using USDC on 1inch" st.itr st.itrSeed).map
                  (fun r => (some (Call.UpdateGameStatus 0 r.1), r.2.1, r.2.2))) := by
  refine ⟨rotateRun_cycle custom live, ?_, ?_, fun a i s => rotate_none_iff custom a i s, ?_, ?_⟩
  · rw [rotateRun_append, rotateRun_cycle]
    dsimp only
    rcases rotateRun custom (fun k => live (k + (2 * custom.length + 1))) n (0, 0)
      with _ | ⟨shown2, c3⟩ <;> rfl
  · exact rotateRun_total custom n live (0, 0) (Nat.zero_le _)
  · intro dg fetch st
    simp only [watchCryptoPriceTick, if_true]
    cases rotate st.custom_activity _ st.itr st.itrSeed with
    | none => rfl
    | some r => simp
  · intro dg fetch st
    have hs : tokenFmtPrice { st.m with Nickname := true } fetch = tokenFmtPrice st.m fetch :=
      tokenFmtPrice_source _ _ _ rfl
    simp only [watchTokenPriceTick, hs]
    cases tokenFmtPrice st.m fetch with
    | none => rfl
    | some p =>
      simp only [if_true]
      cases rotate st.custom_activity "Using USDC on 1inch" st.itr st.itrSeed with
      | none => rfl
      | some r => simp

/-! ## C12: repeated calls of `Shutdown` -/

theorem loopStep_returnsLeft (e : LoopEvent) (w : Watcher) :
    returnsLeft (loopStep e w) ≤ returnsLeft w := by
  obtain ⟨p, c⟩ := w
  cases e <;> cases p <;> cases c <;> simp [loopStep, returnsLeft]

theorem Shutdown_returnsLeft (w w2 : Watcher) (h : Shutdown w = some w2) :
    returnsLeft w2 + 1 = returnsLeft w := by
  obtain ⟨p, c⟩ := w
  unfold Shutdown at h
  by_cases hc : c < 1
  · have hc0 : c = 0 := by omega
    subst hc0
    simp at h
    subst h
    cases p <;> simp [returnsLeft]
  · simp [hc] at h

theorem runSchedule_returnsLeft :
    ∀ (schedule : List Event) (w w2 : Watcher), runSchedule schedule w = some w2 →
      callCount schedule + returnsLeft w2 ≤ returnsLeft w := by
  intro schedule
  induction schedule with
  | nil =>
    intro w w2 h
    simp [runSchedule] at h
    subst h
    simp [callCount]
  | cons ev rest ih =>
    intro w w2 h
    cases ev with
    | call =>
      simp only [runSchedule] at h
      cases hs : Shutdown w with
      | none => simp [hs] at h
      | some w3 =>
        simp only [hs] at h
        have h1 := ih w3 w2 h
        have h2 := Shutdown_returnsLeft w w3 hs
        simp only [callCount]
        omega
    | loop e =>
      simp only [runSchedule] at h
      have h1 := ih _ w2 h
      have h2 := loopStep_returnsLeft e w
      simp only [callCount]
      omega

/-- C12, refuted as stated: on a watcher that has already stopped (and likewise on one
whose set-up was aborted) the second of two successive calls of `Shutdown` finds the
buffer full and blocks; no step of the watcher goroutine empties the buffer again. -/
theorem C12_second_call_blocks_counterexample :
    ShutdownTimes 2 ⟨Phase.stopped, 0⟩ = none
      ∧ ShutdownTimes 2 ⟨Phase.aborted, 0⟩ = none
      ∧ (∀ e : LoopEvent, loopStep e ⟨Phase.stopped, 1⟩ = ⟨Phase.stopped, 1⟩)
      ∧ (∀ e : LoopEvent, loopStep e ⟨Phase.aborted, 1⟩ = ⟨Phase.aborted, 1⟩) := by
  refine ⟨by decide, by decide, ?_, ?_⟩ <;> intro e <;> cases e <;> rfl

/-- C12, amended: in every watcher state a call of `Shutdown` made while the buffer of
`close` is empty returns without blocking (so the first call always returns); a call
made while the buffer is full blocks, so `n ≥ 2` successive calls with no step of the
loop in between never all return; and over every schedule of calls and loop steps in
which no call blocks, the number of calls is at most the free room of the buffer plus
one for the single receive of the loop, hence at most two. -/
theorem C12_shutdown_returns (phase : Phase) (w : Watcher) (n : Nat) (schedule : List Event) :
    Shutdown ⟨phase, 0⟩ = some ⟨phase, 1⟩
      ∧ ShutdownTimes 1 ⟨phase, 0⟩ = some ⟨phase, 1⟩
      ∧ Shutdown ⟨phase, 1⟩ = none
      ∧ ShutdownTimes (n + 2) w = none
      ∧ (∀ w2 : Watcher, runSchedule schedule w = some w2 →
          callCount schedule + returnsLeft w2 ≤ returnsLeft w)
      ∧ returnsLeft w ≤ 2 := by
  refine ⟨rfl, rfl, rfl, ?_, runSchedule_returnsLeft schedule w, ?_⟩
  · obtain ⟨p, c⟩ := w
    cases c with
    | zero => simp [ShutdownTimes, Shutdown]
    | succ c => simp [ShutdownTimes, Shutdown]
  · obtain ⟨p, c⟩ := w
    cases p <;> simp [returnsLeft] <;> omega

/-- C12, the amended statement on a polling watcher: a call, the receive of the loop
and one more call all return, and these two calls use up the bound. -/
theorem C12_shutdown_returns_witness :
    runSchedule [Event.call, Event.loop LoopEvent.closeReceived, Event.call] ⟨Phase.polling, 0⟩
        = some ⟨Phase.stopped, 1⟩
      ∧ callCount [Event.call, Event.loop LoopEvent.closeReceived, Event.call]
          + returnsLeft ⟨Phase.stopped, 1⟩ ≤ returnsLeft ⟨Phase.polling, 0⟩ :=
  ⟨by decide,
    (C12_shutdown_returns Phase.polling ⟨Phase.polling, 0⟩ 0
      [Event.call, Event.loop LoopEvent.closeReceived, Event.call]).2.2.2.2.1
      ⟨Phase.stopped, 1⟩ (by decide)⟩

/-! ## C11: direction and decorator of the equity and crypto ticks -/

theorem increaseOf_false_iff (c : String) :
    increaseOf c = false ↔ c ≠ "" ∧ c.data.head? = some '-' := by
  have hlen : c.length = 0 ↔ c = "" := by
    rw [String.length, List.length_eq_zero]
    constructor
    · intro h
      exact String.ext h
    · intro h
      rw [h]
  unfold increaseOf
  by_cases h0 : c.length = 0
  · simp [h0, hlen.mp h0]
  · have hne : c ≠ "" := fun h => h0 (hlen.mpr h)
    by_cases h1 : c.data.head? = some '-'
    · simp [h0, h1, hne]
    · simp [h0, h1]

theorem decorate_configured (s0dec cur : String) (arrows increase : Bool)
    (ha : arrows = decide (s0dec = "")) (hd : arrows = false → cur = s0dec) :
    decorate arrows increase cur
      = if s0dec = "" then (if increase = true then "⬈" else "⬊") else s0dec := by
  unfold decorate
  by_cases h : s0dec = ""
  · have : arrows = true := by simp [ha, h]
    simp [this, h]
  · have ha2 : arrows = false := by simp [ha, h]
    simp [ha2, h, hd ha2]

theorem fillMessages_total (ext : Bool) (p : StockPrice) (c pc : String) (msgs : List String)
    (h2 : 2 ≤ msgs.length) (h10 : ext = true → 10 ≤ msgs.length) :
    ∃ out, fillMessages ext p c pc msgs = some out ∧ out.length = msgs.length := by
  cases ext with
  | false =>
    rcases msgs with _ | ⟨a0, _ | ⟨a1, rest⟩⟩
    · simp at h2
    · simp at h2
    · simp [fillMessages, setAt]
  | true =>
    have h := h10 rfl
    rcases msgs with _ | ⟨a0, _ | ⟨a1, _ | ⟨a2, _ | ⟨a3, _ | ⟨a4, _ | ⟨a5, _ | ⟨a6, _ | ⟨a7,
      _ | ⟨a8, _ | ⟨a9, rest⟩⟩⟩⟩⟩⟩⟩⟩⟩⟩
    all_goals first
      | (simp at h; done)
      | simp [fillMessages, setAt]

theorem stockMessages_length (s : Stock) :
    2 ≤ (stockMessages s).length ∧ (s.ExtendActivity = true → 10 ≤ (stockMessages s).length) := by
  unfold stockMessages
  constructor
  · simp
  · intro h
    simp [h]

/-- One equity tick from a state whose message list has its set-up length and whose
index is in range: it returns, keeps these facts and the configuration, and when the
quote has a result it selects the decorator by the arrow rule and publishes the
nickname and activity built from it and from the price text. -/
theorem watchStockPriceTick_spec (dg : Discord) (fetch : PriceResults × Bool) (st : StockLoop)
    (h2 : 2 ≤ st.activity_messages.length)
    (h10 : st.s.ExtendActivity = true → 10 ≤ st.activity_messages.length)
    (hi : st.itr < st.activity_messages.length) :
    ∃ calls next, watchStockPriceTick dg fetch st = some (calls, next)
      ∧ next.activity_messages.length = st.activity_messages.length
      ∧ next.itr < next.activity_messages.length
      ∧ (∃ d, next.s = { st.s with Decorator := d })
      ∧ next.exRate = st.exRate
      ∧ next.guilds = st.guilds
      ∧ next.botUserID = st.botUserID
      ∧ next.arrows = st.arrows
      ∧ (st.arrows = false → next.s.Decorator = st.s.Decorator)
      ∧ ∀ r rs, fetch.1.QuoteSummary.Results = r :: rs →
          next.s.Decorator
              = decorate st.arrows (increaseOf (stockDiff r.Price).2) st.s.Decorator
            ∧ (st.s.Nickname = true →
                ∃ activity,
                  calls
                    = guildUpdates dg st.s.Color (increaseOf (stockDiff r.Price).2) st.botUserID
                        (st.s.Name.toUpper ++ " "
                          ++ decorate st.arrows (increaseOf (stockDiff r.Price).2) st.s.Decorator
                          ++ " $" ++ stockFmtPrice st.exRate r.Price)
                        st.guilds
                      ++ [Call.UpdateGameStatus 0 activity])
            ∧ (st.s.Nickname = false →
                calls
                  = [Call.UpdateGameStatus 0
                      (stockFmtPrice st.exRate r.Price ++ " "
                        ++ decorate st.arrows (increaseOf (stockDiff r.Price).2) st.s.Decorator
                        ++ " " ++ (stockDiff r.Price).1)]) := by
  unfold watchStockPriceTick
  cases hres : fetch.1.QuoteSummary.Results with
  | nil =>
    exact ⟨[], st, rfl, rfl, hi, ⟨st.s.Decorator, rfl⟩, rfl, rfl, rfl, rfl, fun _ => rfl,
      fun r rs h => by simp at h⟩
  | cons r0 rs0 =>
    have hdec : st.arrows = false →
        decorate st.arrows (increaseOf (stockDiff r0.Price).2) st.s.Decorator = st.s.Decorator := by
      intro ha
      simp [decorate, ha]
    by_cases hn : st.s.Nickname = true
    · obtain ⟨msgs, hfill, hlen⟩ := fillMessages_total st.s.ExtendActivity r0.Price
        (stockDiff r0.Price).2 (stockDiff r0.Price).1 st.activity_messages h2 h10
      have hlt : st.itr < msgs.length := by omega
      have hget : msgs[st.itr]? = some msgs[st.itr] := List.getElem?_eq_getElem hlt
      simp only [hn, if_true, hfill, hget]
      refine ⟨_, _, rfl, hlen, ?_, ⟨_, rfl⟩, rfl, rfl, rfl, rfl, hdec, ?_⟩
      · show (if st.itr + 1 = msgs.length then 0 else st.itr + 1) < msgs.length
        split <;> omega
      · intro r rs h
        simp only [List.cons.injEq] at h
        rw [← h.1]
        exact ⟨rfl, fun _ => ⟨_, rfl⟩, fun hf => by simp at hf⟩
    · have hnf : st.s.Nickname = false := by simpa using hn
      simp only [hn, if_false]
      refine ⟨_, _, rfl, rfl, hi, ⟨_, rfl⟩, rfl, rfl, rfl, rfl, hdec, ?_⟩
      intro r rs h
      simp only [List.cons.injEq] at h
      rw [← h.1]
      exact ⟨rfl, fun ht => by simp at ht, fun _ => rfl⟩

/-- One crypto tick from a state whose rotation index is in range: it returns, keeps
the configuration, selects the decorator by the arrow rule and publishes the nickname
and activity built from it and from the price text. -/
theorem watchCryptoPriceTick_spec (dg : Discord) (fetch : GeckoPriceResults × Bool)
    (st : CryptoLoop) (hinv : st.itr ≤ st.custom_activity.length) :
    ∃ calls next, watchCryptoPriceTick dg fetch st = some (calls, next)
      ∧ next.custom_activity = st.custom_activity
      ∧ next.itr ≤ next.custom_activity.length
      ∧ (∃ d, next.s = { st.s with Decorator := d })
      ∧ next.exRate = st.exRate
      ∧ next.guilds = st.guilds
      ∧ next.botUserID = st.botUserID
      ∧ next.arrows = st.arrows
      ∧ (st.arrows = false → next.s.Decorator = st.s.Decorator)
      ∧ next.s.Decorator
          = decorate st.arrows
              (increaseOf (cryptoText st.s.Bitcoin (convert st.exRate fetch.1)).fmtChange)
              st.s.Decorator
      ∧ (st.s.Nickname = true →
          ∃ shown,
            calls
              = guildUpdates dg st.s.Color
                  (increaseOf (cryptoText st.s.Bitcoin (convert st.exRate fetch.1)).fmtChange)
                  st.botUserID
                  ((if st.s.Ticker ≠ "" then st.s.Ticker
                      else (convert st.exRate fetch.1).Symbol.toUpper)
                    ++ " "
                    ++ decorate st.arrows
                        (increaseOf
                          (cryptoText st.s.Bitcoin (convert st.exRate fetch.1)).fmtChange)
                        st.s.Decorator
                    ++ " " ++ (cryptoText st.s.Bitcoin (convert st.exRate fetch.1)).fmtPrice)
                  st.guilds
                ++ [Call.UpdateGameStatus 0 shown])
      ∧ (st.s.Nickname = false →
          calls
            = [Call.UpdateGameStatus 0
                ((cryptoText st.s.Bitcoin (convert st.exRate fetch.1)).fmtPrice ++ " "
                  ++ decorate st.arrows
                      (increaseOf (cryptoText st.s.Bitcoin (convert st.exRate fetch.1)).fmtChange)
                      st.s.Decorator
                  ++ " "
                  ++ fmtFixed 2 (convert st.exRate fetch.1).MarketData.PriceChangePercent
                  ++ "%")]) := by
  have hdec : st.arrows = false →
      decorate st.arrows
          (increaseOf (cryptoText st.s.Bitcoin (convert st.exRate fetch.1)).fmtChange)
          st.s.Decorator = st.s.Decorator := by
    intro ha
    simp [decorate, ha]
  unfold watchCryptoPriceTick
  by_cases hn : st.s.Nickname = true
  · obtain ⟨shown, itr2, seed2, hr, hle⟩ := rotate_total st.custom_activity
      ((cryptoText st.s.Bitcoin (convert st.exRate fetch.1)).changeHeader
        ++ (cryptoText st.s.Bitcoin (convert st.exRate fetch.1)).fmtChange ++ " ("
        ++ fmtFixed 2 (convert st.exRate fetch.1).MarketData.PriceChangePercent ++ "%)")
      st.itr st.itrSeed hinv
    simp only [hn, if_true, hr]
    exact ⟨_, _, rfl, rfl, hle, ⟨_, rfl⟩, rfl, rfl, rfl, rfl, hdec, rfl, fun _ => ⟨_, rfl⟩,
      fun hf => by simp at hf⟩
  · have hnf : st.s.Nickname = false := by simpa using hn
    simp only [hn, if_false]
    exact ⟨_, _, rfl, rfl, hinv, ⟨_, rfl⟩, rfl, rfl, rfl, rfl, hdec, rfl,
      fun ht => by simp at ht, fun _ => rfl⟩

theorem watchStockPriceTicks_spec (s0 : Stock) (Decorator : String) (exRate : ℚ)
    (gs : List Guild) (bot : String) :
    ∀ (ticks : List (Discord × (PriceResults × Bool))) (st : StockLoop),
      2 ≤ st.activity_messages.length →
      (s0.ExtendActivity = true → 10 ≤ st.activity_messages.length) →
      st.itr < st.activity_messages.length →
      (∃ d, st.s = { s0 with Decorator := d }) →
      st.exRate = exRate → st.guilds = gs → st.botUserID = bot →
      st.arrows = decide (Decorator = "") →
      (st.arrows = false → st.s.Decorator = Decorator) →
      ∃ steps final, watchStockPriceTicks ticks st = some (steps, final)
        ∧ ∀ (i : Nat) (dg : Discord) (r : StockResult) (rs : List StockResult) (err : Bool)
            (calls : List Call) (next : StockLoop),
            ticks[i]? = some (dg, (⟨⟨r :: rs⟩⟩, err)) → steps[i]? = some (calls, next) →
            next.s.Decorator
                = (if Decorator = "" then
                    (if increaseOf (stockDiff r.Price).2 = true then "⬈" else "⬊")
                  else Decorator)
              ∧ (s0.Nickname = true →
                  ∃ activity,
                    calls
                      = guildUpdates dg s0.Color (increaseOf (stockDiff r.Price).2) bot
                          (s0.Name.toUpper ++ " "
                            ++ (if Decorator = "" then
                                  (if increaseOf (stockDiff r.Price).2 = true then "⬈" else "⬊")
                                else Decorator)
                            ++ " $" ++ stockFmtPrice exRate r.Price)
                          gs
                        ++ [Call.UpdateGameStatus 0 activity])
              ∧ (s0.Nickname = false →
                  calls
                    = [Call.UpdateGameStatus 0
                        (stockFmtPrice exRate r.Price ++ " "
                          ++ (if Decorator = "" then
                                (if increaseOf (stockDiff r.Price).2 = true then "⬈" else "⬊")
                              else Decorator)
                          ++ " " ++ (stockDiff r.Price).1)]) := by
  intro ticks
  induction ticks with
  | nil =>
    intro st _ _ _ _ _ _ _ _ _
    exact ⟨[], st, rfl, fun i dg r rs err calls next h => by simp at h⟩
  | cons t rest ih =>
    intro st h2 h10 hi hs hx hg hb ha hd
    obtain ⟨dg0, fetch0⟩ := t
    obtain ⟨d, hsd⟩ := hs
    have hext : st.s.ExtendActivity = s0.ExtendActivity := by rw [hsd]
    have hnick : st.s.Nickname = s0.Nickname := by rw [hsd]
    have hcol : st.s.Color = s0.Color := by rw [hsd]
    have hname : st.s.Name = s0.Name := by rw [hsd]
    obtain ⟨calls0, next0, htick, hlen, hi2, ⟨d2, hs2⟩, hx2, hg2, hb2, harr, hkeep, hdec⟩ :=
      watchStockPriceTick_spec dg0 fetch0 st h2 (by rw [hext]; exact h10) hi
    have hd2 : next0.arrows = false → next0.s.Decorator = Decorator := by
      intro h
      rw [harr] at h
      rw [hkeep h, hd h]
    have hs3 : ∃ d3, next0.s = { s0 with Decorator := d3 } := ⟨d2, by rw [hs2, hsd]⟩
    obtain ⟨steps, final, hrun, hall⟩ := ih next0 (by rw [hlen]; exact h2)
      (by rw [hlen]; exact h10) hi2 hs3 (by rw [hx2]; exact hx) (by rw [hg2]; exact hg)
      (by rw [hb2]; exact hb) (by rw [harr]; exact ha) hd2
    refine ⟨(calls0, next0) :: steps, final, by simp [watchStockPriceTicks, htick, hrun], ?_⟩
    intro i dg r rs err calls next hti hsi
    cases i with
    | zero =>
      simp only [List.getElem?_cons_zero, Option.some.injEq, Prod.mk.injEq] at hti hsi
      obtain ⟨hdg, hf⟩ := hti
      obtain ⟨hc, hn⟩ := hsi
      subst hn
      subst hc
      subst hdg
      obtain ⟨hD, hN, hF⟩ := hdec r rs (by rw [hf])
      have e := decorate_configured Decorator st.s.Decorator st.arrows
        (increaseOf (stockDiff r.Price).2) ha hd
      rw [e] at hD hN hF
      rw [hnick, hcol, hname, hx, hg, hb] at hN
      rw [hnick, hx] at hF
      exact ⟨hD, hN, hF⟩
    | succ j =>
      simp only [List.getElem?_cons_succ] at hti hsi
      exact hall j dg r rs err calls next hti hsi

theorem watchCryptoPriceTicks_spec (s0 : Stock) (Decorator : String) (exRate : ℚ)
    (gs : List Guild) (bot : String) :
    ∀ (ticks : List (Discord × (GeckoPriceResults × Bool))) (st : CryptoLoop),
      st.itr ≤ st.custom_activity.length →
      (∃ d, st.s = { s0 with Decorator := d }) →
      st.exRate = exRate → st.guilds = gs → st.botUserID = bot →
      st.arrows = decide (Decorator = "") →
      (st.arrows = false → st.s.Decorator = Decorator) →
      ∃ steps final, watchCryptoPriceTicks ticks st = some (steps, final)
        ∧ ∀ (i : Nat) (dg : Discord) (fetch : GeckoPriceResults × Bool)
            (calls : List Call) (next : CryptoLoop),
            ticks[i]? = some (dg, fetch) → steps[i]? = some (calls, next) →
            next.s.Decorator
                = (if Decorator = "" then
                    (if increaseOf (cryptoText s0.Bitcoin (convert exRate fetch.1)).fmtChange
                        = true then "⬈" else "⬊")
                  else Decorator)
              ∧ (s0.Nickname = true →
                  ∃ shown,
                    calls
                      = guildUpdates dg s0.Color
                          (increaseOf (cryptoText s0.Bitcoin (convert exRate fetch.1)).fmtChange)
                          bot
                          ((if s0.Ticker ≠ "" then s0.Ticker
                              else (convert exRate fetch.1).Symbol.toUpper)
                            ++ " "
                            ++ (if Decorator = "" then
                                  (if increaseOf
                                        (cryptoText s0.Bitcoin (convert exRate fetch.1)).fmtChange
                                      = true then "⬈" else "⬊")
                                else Decorator)
                            ++ " " ++ (cryptoText s0.Bitcoin (convert exRate fetch.1)).fmtPrice)
                          gs
                        ++ [Call.UpdateGameStatus 0 shown])
              ∧ (s0.Nickname = false →
                  calls
                    = [Call.UpdateGameStatus 0
                        ((cryptoText s0.Bitcoin (convert exRate fetch.1)).fmtPrice ++ " "
                          ++ (if Decorator = "" then
                                (if increaseOf
                                      (cryptoText s0.Bitcoin (convert exRate fetch.1)).fmtChange
                                    = true then "⬈" else "⬊")
                              else Decorator)
                          ++ " "
                          ++ fmtFixed 2 (convert exRate fetch.1).MarketData.PriceChangePercent
                          ++ "%")]) := by
  intro ticks
  induction ticks with
  | nil =>
    intro st _ _ _ _ _ _ _
    exact ⟨[], st, rfl, fun i dg fetch calls next h => by simp at h⟩
  | cons t rest ih =>
    intro st hinv hs hx hg hb ha hd
    obtain ⟨dg0, fetch0⟩ := t
    obtain ⟨d, hsd⟩ := hs
    have hbit : st.s.Bitcoin = s0.Bitcoin := by rw [hsd]
    have hnick : st.s.Nickname = s0.Nickname := by rw [hsd]
    have hcol : st.s.Color = s0.Color := by rw [hsd]
    have htk : st.s.Ticker = s0.Ticker := by rw [hsd]
    obtain ⟨calls0, next0, htick, hcust, hle, ⟨d2, hs2⟩, hx2, hg2, hb2, harr, hkeep, hD, hN, hF⟩ :=
      watchCryptoPriceTick_spec dg0 fetch0 st hinv
    have hd2 : next0.arrows = false → next0.s.Decorator = Decorator := by
      intro h
      rw [harr] at h
      rw [hkeep h, hd h]
    have hs3 : ∃ d3, next0.s = { s0 with Decorator := d3 } := ⟨d2, by rw [hs2, hsd]⟩
    obtain ⟨steps, final, hrun, hall⟩ := ih next0 hle hs3 (by rw [hx2]; exact hx)
      (by rw [hg2]; exact hg) (by rw [hb2]; exact hb) (by rw [harr]; exact ha) hd2
    refine ⟨(calls0, next0) :: steps, final, by simp [watchCryptoPriceTicks, htick, hrun], ?_⟩
    intro i dg fetch calls next hti hsi
    cases i with
    | zero =>
      simp only [List.getElem?_cons_zero, Option.some.injEq, Prod.mk.injEq] at hti hsi
      obtain ⟨hdg, hf⟩ := hti
      obtain ⟨hc, hn⟩ := hsi
      subst hn
      subst hc
      subst hdg
      subst hf
      have e := decorate_configured Decorator st.s.Decorator st.arrows
        (increaseOf (cryptoText st.s.Bitcoin (convert st.exRate fetch0.1)).fmtChange) ha hd
      rw [e] at hD hN hF
      rw [hbit, hx] at hD
      rw [hnick, hcol, htk, hbit, hx, hg, hb] at hN
      rw [hnick, hbit, hx] at hF
      exact ⟨hD, hN, hF⟩
    | succ j =>
      simp only [List.getElem?_cons_succ] at hti hsi
      exact hall j dg fetch calls next hti hsi

theorem cryptoText_fmtChange (Bitcoin : Bool) (pd : GeckoPriceResults) :
    (cryptoText Bitcoin pd).fmtChange
      = fmtFixed 2 (if Bitcoin = true then pd.MarketData.PriceChangeCurrency.BTC
          else pd.MarketData.PriceChangeCurrency.USD) := by
  unfold cryptoText
  cases Bitcoin with
  | true => simp
  | false =>
    simp only [Bool.false_eq_true, if_false]
    split
    · split <;> rfl
    · split <;> rfl

/-- C11: `increase` is false exactly when the change text is non-empty and starts with
a minus sign; the crypto change text is the two-decimal rendering of the change
amount; and on every tick of an equity or crypto watcher run from the start of its
loop (an equity tick whose quote has a result, every crypto tick) the decorator is
`⬈` or `⬊` by `increase` when the configured decorator is empty and the configured
decorator itself otherwise: this decorator is the one left in the record, the one in
the nickname sent to every guild in nickname mode (where the role swap follows the
same `increase`), and the one in the activity published otherwise. -/
theorem C11_direction_and_decorator (s : Stock) (botUserID : String)
    (guilds : Option (List Guild)) (exRate : ℚ) (c : String)
    (eticks : List (Discord × (PriceResults × Bool)))
    (cticks : List (Discord × (GeckoPriceResults × Bool))) :
    (increaseOf c = false ↔ c ≠ "" ∧ c.data.head? = some '-')
      ∧ (∀ (Bitcoin : Bool) (pd : GeckoPriceResults),
          (cryptoText Bitcoin pd).fmtChange
            = fmtFixed 2 (if Bitcoin = true then pd.MarketData.PriceChangeCurrency.BTC
                else pd.MarketData.PriceChangeCurrency.USD))
      ∧ (∃ steps final,
          watchStockPriceTicks eticks (watchStockPriceInit s botUserID guilds exRate)
            = some (steps, final)
          ∧ ∀ (i : Nat) (dg : Discord) (r : StockResult) (rs : List StockResult) (err : Bool)
              (calls : List Call) (next : StockLoop),
              eticks[i]? = some (dg, (⟨⟨r :: rs⟩⟩, err)) → steps[i]? = some (calls, next) →
              next.s.Decorator
                  = (if s.Decorator = "" then
                      (if increaseOf (stockDiff r.Price).2 = true then "⬈" else "⬊")
                    else s.Decorator)
                ∧ ((watchStockPriceInit s botUserID guilds exRate).s.Nickname = true →
                    ∃ activity,
                      calls
                        = guildUpdates dg s.Color (increaseOf (stockDiff r.Price).2) botUserID
                            (s.Name.toUpper ++ " "
                              ++ (if s.Decorator = "" then
                                    (if increaseOf (stockDiff r.Price).2 = true then "⬈"
                                      else "⬊")
                                  else s.Decorator)
                              ++ " $" ++ stockFmtPrice exRate r.Price)
                            (guilds.getD [])
                          ++ [Call.UpdateGameStatus 0 activity])
                ∧ ((watchStockPriceInit s botUserID guilds exRate).s.Nickname = false →
                    calls
                      = [Call.UpdateGameStatus 0
                          (stockFmtPrice exRate r.Price ++ " "
                            ++ (if s.Decorator = "" then
                                  (if increaseOf (stockDiff r.Price).2 = true then "⬈" else "⬊")
                                else s.Decorator)
                            ++ " " ++ (stockDiff r.Price).1)]))
      ∧ (∃ steps final,
          watchCryptoPriceTicks cticks (watchCryptoPriceInit s botUserID guilds exRate)
            = some (steps, final)
          ∧ ∀ (i : Nat) (dg : Discord) (fetch : GeckoPriceResults × Bool)
              (calls : List Call) (next : CryptoLoop),
              cticks[i]? = some (dg, fetch) → steps[i]? = some (calls, next) →
              next.s.Decorator
                  = (if s.Decorator = "" then
                      (if increaseOf (cryptoText s.Bitcoin (convert exRate fetch.1)).fmtChange
                          = true then "⬈" else "⬊")
                    else s.Decorator)
                ∧ ((watchCryptoPriceInit s botUserID guilds exRate).s.Nickname = true →
                    ∃ shown,
                      calls
                        = guildUpdates dg s.Color
                            (increaseOf (cryptoText s.Bitcoin (convert exRate fetch.1)).fmtChange)
                            botUserID
                            ((if s.Ticker ≠ "" then s.Ticker
                                else (convert exRate fetch.1).Symbol.toUpper)
                              ++ " "
                              ++ (if s.Decorator = "" then
                                    (if increaseOf
                                          (cryptoText s.Bitcoin (convert exRate fetch.1)).fmtChange
                                        = true then "⬈" else "⬊")
                                  else s.Decorator)
                              ++ " " ++ (cryptoText s.Bitcoin (convert exRate fetch.1)).fmtPrice)
                            (guilds.getD [])
                          ++ [Call.UpdateGameStatus 0 shown])
                ∧ ((watchCryptoPriceInit s botUserID guilds exRate).s.Nickname = false →
                    calls
                      = [Call.UpdateGameStatus 0
                          ((cryptoText s.Bitcoin (convert exRate fetch.1)).fmtPrice ++ " "
                            ++ (if s.Decorator = "" then
                                  (if increaseOf
                                        (cryptoText s.Bitcoin (convert exRate fetch.1)).fmtChange
                                      = true then "⬈" else "⬊")
                                else s.Decorator)
                            ++ " "
                            ++ fmtFixed 2 (convert exRate fetch.1).MarketData.PriceChangePercent
                            ++ "%")])) := by
  refine ⟨increaseOf_false_iff c, cryptoText_fmtChange, ?_, ?_⟩
  · have hl := stockMessages_length s
    exact watchStockPriceTicks_spec (watchStockPriceInit s botUserID guilds exRate).s
      s.Decorator exRate (guilds.getD []) botUserID eticks
      (watchStockPriceInit s botUserID guilds exRate) hl.1 hl.2
      (show 0 < (stockMessages s).length by omega) ⟨s.Decorator, rfl⟩ rfl rfl rfl rfl
      (fun _ => rfl)
  · exact watchCryptoPriceTicks_spec (watchCryptoPriceInit s botUserID guilds exRate).s
      s.Decorator exRate (guilds.getD []) botUserID cticks
      (watchCryptoPriceInit s botUserID guilds exRate) (Nat.zero_le _) ⟨s.Decorator, rfl⟩
      rfl rfl rfl rfl (fun _ => rfl)

/-- C11 at the sample equity quote: the change text `"-1.20"` gives the down glyph, in
the record and in the nickname sent to the guild. -/
theorem C11_direction_and_decorator_witness :
    ∃ steps final,
      watchStockPriceTicks [(quietDiscord, (sampleStockQuote, false))]
          (watchStockPriceInit sampleStock "bot" (some oneGuild) 0) = some (steps, final)
        ∧ (steps[0]?).map (fun r => r.2.s.Decorator) = some "⬊"
        ∧ (steps[0]?).map (fun r => r.1.head?)
            = some (some (Call.GuildMemberNickname "g1" "@me"
                ("aapl".toUpper ++ " " ++ "⬊" ++ " $" ++ "123.45"))) := by
  obtain ⟨steps, final, hrun, hall⟩ :=
    (C11_direction_and_decorator sampleStock "bot" (some oneGuild) 0 "-1.20"
      [(quietDiscord, (sampleStockQuote, false))] []).2.2.1
  refine ⟨steps, final, hrun, ?_⟩
  cases htick : watchStockPriceTick quietDiscord (sampleStockQuote, false)
      (watchStockPriceInit sampleStock "bot" (some oneGuild) 0) with
  | none => simp [watchStockPriceTicks, htick] at hrun
  | some step =>
    simp only [watchStockPriceTicks, htick, Option.some.injEq, Prod.mk.injEq] at hrun
    obtain ⟨hs, -⟩ := hrun
    subst hs
    obtain ⟨hD, hN, -⟩ := hall 0 quietDiscord _ _ false step.1 step.2 rfl rfl
    obtain ⟨activity, hcalls⟩ := hN rfl
    have hprice : stockFmtPrice 0
        { RegularMarketPrice := { Raw := 12345 / 100, Fmt := "123.45" }
          MarketState := "REGULAR"
          PostMarketChangePercent := { Raw := 0, Fmt := "" }
          PostMarketChange := { Raw := 0, Fmt := "" }
          PreMarketChangePercent := { Raw := 0, Fmt := "" }
          PreMarketChange := { Raw := 0, Fmt := "" }
          RegularMarketChangePercent := { Raw := -96 / 10000, Fmt := "-0.96%" }
          RegularMarketChange := { Raw := -120 / 100, Fmt := "-1.20" }
          MarketCap := { Raw := 2500000000000, Fmt := "2.5T" }
          CirculatingSupply := { Raw := 0, Fmt := "" }
          Volume24Hr := { Raw := 0, Fmt := "" }
          RegularMarketOpen := { Raw := 12465 / 100, Fmt := "124.65" } } = "123.45" := by
      simp [stockFmtPrice]
    simp only [List.getElem?_cons_zero, Option.map_some', hD, hcalls, hprice]
    exact ⟨rfl, rfl⟩

/-! ## C3: what a tick displays under an exchange rate -/

theorem fmtFixed_converted_sample : fmtFixed 2 ((2 : ℚ) * (12345 / 100)) = "246.90" := by
  rw [fmtFixed_nonneg 2 _ 2469 10 (by norm_num) (by norm_num)]
  decide

/-- C3, amended: with a non-zero exchange rate `r`, a crypto tick replaces the USD
price and the USD change amount of the quote by `r` times their raw values before
anything is formatted, leaving the BTC amounts alone, and the calls it makes are those
of a rate-free tick on the converted quote.  On every equity tick of a run from the
start of the loop whose quote has a result, the price text in the nickname sent to
every guild (nickname mode) or in the published activity (otherwise) is `r` times the
raw regular-market price rendered with two decimals when `r ≠ 0`, and the provider's
text when `r = 0`.  With `r = 0` the crypto quote is used as fetched. -/
theorem C3_exchange_rate (r : ℚ) (pd : GeckoPriceResults) (p : StockPrice) (dg : Discord)
    (err : Bool) (st : CryptoLoop) (s : Stock) (botUserID : String)
    (guilds : Option (List Guild)) (eticks : List (Discord × (PriceResults × Bool))) :
    (r ≠ 0 →
        (convert r pd).MarketData.CurrentPrice.USD = r * pd.MarketData.CurrentPrice.USD
          ∧ (convert r pd).MarketData.PriceChangeCurrency.USD
              = r * pd.MarketData.PriceChangeCurrency.USD
          ∧ (convert r pd).MarketData.CurrentPrice.BTC = pd.MarketData.CurrentPrice.BTC
          ∧ (convert r pd).MarketData.PriceChangeCurrency.BTC
              = pd.MarketData.PriceChangeCurrency.BTC
          ∧ stockFmtPrice r p = fmtFixed 2 (r * p.RegularMarketPrice.Raw))
      ∧ convert 0 pd = pd
      ∧ stockFmtPrice 0 p = p.RegularMarketPrice.Fmt
      ∧ (watchCryptoPriceTick dg (pd, err) st).map Prod.fst
          = (watchCryptoPriceTick dg (convert st.exRate pd, err)
              { st with exRate := 0 }).map Prod.fst
      ∧ (∃ steps final,
          watchStockPriceTicks eticks (watchStockPriceInit s botUserID guilds r)
            = some (steps, final)
          ∧ ∀ (i : Nat) (dg2 : Discord) (q : StockResult) (rs : List StockResult) (err2 : Bool)
              (calls : List Call) (next : StockLoop),
              eticks[i]? = some (dg2, (⟨⟨q :: rs⟩⟩, err2)) → steps[i]? = some (calls, next) →
              ((watchStockPriceInit s botUserID guilds r).s.Nickname = true →
                  ∃ activity,
                    calls
                      = guildUpdates dg2 s.Color (increaseOf (stockDiff q.Price).2) botUserID
                          (s.Name.toUpper ++ " " ++ next.s.Decorator ++ " $"
                            ++ (if r ≠ 0 then fmtFixed 2 (r * q.Price.RegularMarketPrice.Raw)
                                else q.Price.RegularMarketPrice.Fmt))
                          (guilds.getD [])
                        ++ [Call.UpdateGameStatus 0 activity])
                ∧ ((watchStockPriceInit s botUserID guilds r).s.Nickname = false →
                    calls
                      = [Call.UpdateGameStatus 0
                          ((if r ≠ 0 then fmtFixed 2 (r * q.Price.RegularMarketPrice.Raw)
                              else q.Price.RegularMarketPrice.Fmt)
                            ++ " " ++ next.s.Decorator ++ " " ++ (stockDiff q.Price).1)])) := by
  refine ⟨fun hr => ?_, convert_zero pd, by simp [stockFmtPrice], ?_, ?_⟩
  · simp [convert, stockFmtPrice, hr]
  · simp only [watchCryptoPriceTick, convert_zero]
    split
    · split <;> simp
    · simp
  · have hl := stockMessages_length s
    obtain ⟨steps, final, hrun, hall⟩ :=
      watchStockPriceTicks_spec (watchStockPriceInit s botUserID guilds r).s
        s.Decorator r (guilds.getD []) botUserID eticks
        (watchStockPriceInit s botUserID guilds r) hl.1 hl.2
        (show 0 < (stockMessages s).length by omega) ⟨s.Decorator, rfl⟩ rfl rfl rfl rfl
        (fun _ => rfl)
    refine ⟨steps, final, hrun, ?_⟩
    intro i dg2 q rs err2 calls next h1 h2
    obtain ⟨hD, hN, hF⟩ := hall i dg2 q rs err2 calls next h1 h2
    rw [← hD] at hN hF
    exact ⟨hN, hF⟩

/-- C3, the amended statement at rate `2`: the USD amounts of the sample crypto quote
are doubled, and the sample equity quote with raw price `123.45` is shown as
`$246.90` in the nickname. -/
theorem C3_exchange_rate_witness :
    (convert 2 (geckoQuote 3 1)).MarketData.CurrentPrice.USD
        = 2 * (geckoQuote 3 1).MarketData.CurrentPrice.USD
      ∧ (convert 2 (geckoQuote 3 1)).MarketData.PriceChangeCurrency.USD
          = 2 * (geckoQuote 3 1).MarketData.PriceChangeCurrency.USD
      ∧ ∃ steps final,
          watchStockPriceTicks [(quietDiscord, (sampleStockQuote, false))]
              (watchStockPriceInit sampleStock "bot" (some oneGuild) 2) = some (steps, final)
            ∧ (steps[0]?).map (fun step => step.1.head?)
                = (steps[0]?).map (fun step =>
                    some (Call.GuildMemberNickname "g1" "@me"
                      ("aapl".toUpper ++ " " ++ step.2.s.Decorator ++ " $" ++ "246.90"))) := by
  have h := C3_exchange_rate 2 (geckoQuote 3 1)
    ⟨⟨0, ""⟩, "", ⟨0, ""⟩, ⟨0, ""⟩, ⟨0, ""⟩, ⟨0, ""⟩, ⟨0, ""⟩, ⟨0, ""⟩, ⟨0, ""⟩, ⟨0, ""⟩,
      ⟨0, ""⟩, ⟨0, ""⟩⟩
    quietDiscord false (watchCryptoPriceInit (sampleCrypto false) "bot" (some oneGuild) 2)
    sampleStock "bot" (some oneGuild) [(quietDiscord, (sampleStockQuote, false))]
  have hc := h.1 (by norm_num)
  obtain ⟨steps, final, hrun, hall⟩ := h.2.2.2.2
  refine ⟨hc.1, hc.2.1, steps, final, hrun, ?_⟩
  cases htick : watchStockPriceTick quietDiscord (sampleStockQuote, false)
      (watchStockPriceInit sampleStock "bot" (some oneGuild) 2) with
  | none => simp [watchStockPriceTicks, htick] at hrun
  | some step =>
    simp only [watchStockPriceTicks, htick, Option.some.injEq, Prod.mk.injEq] at hrun
    obtain ⟨hs, -⟩ := hrun
    subst hs
    obtain ⟨hN, -⟩ := hall 0 quietDiscord _ _ false step.1 step.2 rfl rfl
    obtain ⟨activity, hcalls⟩ := hN rfl
    have h2 : ((2 : ℚ) ≠ 0) := by norm_num
    rw [if_pos h2, fmtFixed_converted_sample] at hcalls
    simp only [List.getElem?_cons_zero, Option.map_some', hcalls]
    rfl

end StockTicker
